import Mathlib

/-!
# suprt/test_proj: file-transfer service

A shallow embedding of the three core packages of the repository

* `internal/storage/storage.go`  (namespace `storage`)
* `internal/server/server.go`    (namespace `server`)
* `internal/limiter/limiter.go`  (namespace `limiter`)

Go strings are Lean `String`s, byte slices are lists of `Fin 256`, Go maps are
association lists with unique keys, Go `error` values are terms of `GoError`.
The operating system is an explicit state `FS` (the entries of the store's root
directory plus the sequence of system calls issued so far); everything the
environment decides (I/O failures, random temp names, the clock, which ready
branch a `select` takes) is an explicit argument.
-/

set_option autoImplicit false

deriving instance DecidableEq for Except

/-! ## Go runtime: errors, byte slices, maps -/

/-- Bytes of a file or of a chunk payload (`[]byte`). -/
abbrev Bytes := List (Fin 256)

/-- Status codes of the RPC transport that matter for this program. -/
inductive Code where
  | OK | Canceled | Unknown | InvalidArgument | DeadlineExceeded | NotFound | Internal
deriving DecidableEq, Repr

/-- Go `error` values occurring in the program. -/
inductive GoError where
  /-- Result of `fmt.Errorf(msg)` without a wrapping verb: a plain error. -/
  | errorf (msg : String)
  /-- Result of `fmt.Errorf("msg: %w", inner)`. -/
  | wrap (msg : String) (inner : GoError)
  /-- The sentinel `io.EOF`. -/
  | eof
  /-- The sentinel `context.Canceled`. -/
  | canceled
  /-- The sentinel `context.DeadlineExceeded`. -/
  | deadlineExceeded
  /-- An error of the `os` package (`*PathError`, `*LinkError`, ...). -/
  | sys (op : String) (errno : String)
  /-- An error produced by the RPC stream, carrying a status code. -/
  | status (code : Code) (msg : String)
deriving DecidableEq, Repr

namespace GoError

/-- Status code under which the RPC transport reports a handler error: the code
of a status error (also when wrapped), the context codes for the context
sentinels, and `Unknown` for every other error. -/
def statusCode : GoError → Code
  | status c _ => c
  | wrap _ inner => statusCode inner
  | canceled => Code.Canceled
  | deadlineExceeded => Code.DeadlineExceeded
  | errorf _ => Code.Unknown
  | eof => Code.Unknown
  | sys _ _ => Code.Unknown

end GoError

/-- Go `map[string]V` as an association list; keys are kept unique by `set`. -/
abbrev GoMap (V : Type) := List (String × V)

namespace GoMap

variable {V : Type}

/-- Map lookup `m[k]` with the comma-ok result. -/
def get : GoMap V → String → Option V
  | [], _ => none
  | (k', v) :: m, k => if k' = k then some v else get m k

/-- Builtin `delete(m, k)`. -/
def delete (m : GoMap V) (k : String) : GoMap V :=
  m.filter (fun e => decide (e.1 ≠ k))

/-- Assignment `m[k] = v`. -/
def set (m : GoMap V) (k : String) (v : V) : GoMap V :=
  (k, v) :: delete m k

/-- Key set of the map, in storage order. -/
def keys (m : GoMap V) : List String := m.map Prod.fst

end GoMap

/-! ## Package `path/filepath` and `strings` (Unix) -/

namespace filepath

/-- Constant `filepath.Separator` on Unix. -/
def Separator : Char := '/'

/-- First loop of `filepath.Base`: strip trailing separators. -/
def stripTrailing (p : List Char) : List Char :=
  (p.reverse.dropWhile (fun c => decide (c = Separator))).reverse

/-- Second loop of `filepath.Base`: the part after the last separator. -/
def lastElement (p : List Char) : List Char :=
  (p.reverse.takeWhile (fun c => decide (c ≠ Separator))).reverse

/-- Function `filepath.Base`: the last element of a path (the volume name is empty
on Unix). -/
def Base (path : String) : String :=
  if path = "" then "."
  else
    let p := lastElement (stripTrailing path.data)
    if p = [] then "/" else String.mk p

end filepath

namespace strings

/-- Function `strings.ContainsRune`. -/
def ContainsRune (s : String) (r : Char) : Bool := s.data.contains r

/-- Function `strings.HasSuffix`. -/
def HasSuffix (s suffix : String) : Bool := suffix.data.isSuffixOf s.data

end strings

/-! ## Package `storage` -/

namespace storage

/-- Struct `Metadata`; times are nanoseconds since the epoch, in UTC. `SizeBytes`
is an `int64`: sizes and counts of bytes of one file stay below `2^63` (file
offsets are `int64` themselves), so they are integers that do not wrap. -/
structure Metadata where
  Filename : String
  SizeBytes : Int
  CreatedAt : Nat
  UpdatedAt : Nat
deriving DecidableEq, Repr

/-- The zero value `Metadata{}`. -/
def Metadata.zero : Metadata := ⟨"", 0, 0, 0⟩

/-- Function `validateFilename`; `none` is the `nil` error. -/
def validateFilename (name : String) : Option GoError :=
  if name = "" then some (GoError.errorf "filename is required")
  else if filepath.Base name ≠ name then some (GoError.errorf "invalid filename")
  else if name = "." ∨ name = ".." then some (GoError.errorf "invalid filename")
  else if strings.ContainsRune name filepath.Separator then
    some (GoError.errorf "invalid filename")
  else none

/-! ### The operating system seen by the store -/

/-- An entry of the store's root directory. -/
inductive Node where
  | file (data : Bytes) (modTime : Nat)
  | dir
deriving DecidableEq, Repr

/-- Calls of the `os` package issued by the store, with their path argument. -/
inductive Syscall where
  | CreateTemp (pattern : String)
  | Sync (path : String)
  | Close (path : String)
  | Remove (path : String)
  | Rename (src dst : String)
  | Stat (path : String)
  | Create (path : String)
  | Open (path : String)
  | ReadFile (path : String)
  | ReadDir
deriving DecidableEq, Repr

/-- State of the file system below `rootDir`: the directory entries by name, and
the calls issued so far. -/
structure FS where
  entries : GoMap Node
  calls : List Syscall
deriving DecidableEq, Repr

/-- Record one more call. -/
def FS.call (fs : FS) (c : Syscall) : FS := { fs with calls := fs.calls ++ [c] }

/-- The write side handed to a producer (`io.Writer` over the temp file). -/
structure Writer where
  /-- Bytes accepted so far. -/
  data : Bytes
  /-- Bytes the device still accepts before a write fails; `none` is no limit. -/
  space : Option Nat
deriving DecidableEq, Repr

/-- Method `(*os.File).Write`: all of `p` is appended, or a prefix of it together
with an error. Returns the byte count and the error. -/
def Writer.Write (w : Writer) (p : Bytes) : Writer × Nat × Option GoError :=
  match w.space with
  | none => ({ w with data := w.data ++ p }, p.length, none)
  | some k =>
    if p.length ≤ k then
      ({ data := w.data ++ p, space := some (k - p.length) }, p.length, none)
    else
      ({ data := w.data ++ p.take k, space := some 0 }, k, some (GoError.sys "write" "ENOSPC"))

/-- A producer `func(w io.Writer) (int64, error)`: from the writer it is given to
the writer it leaves, the count it reports and its error. -/
abbrev Producer := Writer → Writer × Int × Option GoError

/-- Package `encoding/json` on `Metadata`, as used by the store. -/
structure Codec where
  encode : Metadata → Bytes
  decode : Bytes → Option Metadata

/-- What the environment decides during one `SaveStream` call. -/
structure SaveEnv where
  /-- Successive random numbers drawn by `os.CreateTemp`. -/
  rands : List Nat
  /-- A failure of `os.CreateTemp` other than a name collision. -/
  createTempErr : Option GoError
  /-- Free space of the device, in bytes; `none` is no limit. -/
  space : Option Nat
  /-- Modification time the temp file carries when it is closed. -/
  tmpTime : Nat
  /-- Failure of `tmp.Sync()`. -/
  syncErr : Option GoError
  /-- Failure of `tmp.Close()` before the rename. -/
  closeErr : Option GoError
  /-- Failure of `os.Remove(tmpPath)`; the program only logs it. -/
  removeErr : Option GoError
  /-- Failure of `os.Rename`. -/
  renameErr : Option GoError
  /-- Failure of `os.Stat(dstPath)`. -/
  statErr : Option GoError
  /-- Failure of `os.Create` of the sidecar. -/
  metaCreateErr : Option GoError
  /-- Failure of `enc.Encode` into the sidecar. -/
  metaEncodeErr : Option GoError
  /-- Failure of the deferred `f.Close()` of the sidecar; the program only logs it. -/
  metaCloseErr : Option GoError
  /-- Modification time of the sidecar. -/
  metaTime : Nat
  /-- Value of `time.Now()`. -/
  now : Nat

/-- A context as the program uses it: the peer of the call, and the error of the
context when a `select` observes `ctx.Done()`. -/
structure Context where
  peer : Option String
  done : Option GoError
deriving DecidableEq, Repr

/-- Name of the temp file for one random number (pattern `.upload-*`). -/
def tempName (r : Nat) : String := ".upload-" ++ toString r

/-- Loop of `os.CreateTemp`: the first candidate name that does not exist. -/
def pickTemp (entries : GoMap Node) : List Nat → Option String
  | [] => none
  | r :: rs =>
    if (entries.get (tempName r)).isNone then some (tempName r) else pickTemp entries rs

/-- Function `os.CreateTemp(rootDir, ".upload-*")`. -/
def CreateTemp (fs : FS) (env : SaveEnv) : Except GoError String × FS :=
  let fs := fs.call (Syscall.CreateTemp ".upload-*")
  match env.createTempErr with
  | some e => (Except.error e, fs)
  | none =>
    match pickTemp fs.entries env.rands with
    | none => (Except.error (GoError.sys "open" "EEXIST"), fs)
    | some name =>
      (Except.ok name, { fs with entries := fs.entries.set name (Node.file [] env.tmpTime) })

/-- Function `os.Remove`; a failure leaves the entry in place. -/
def Remove (fs : FS) (err : Option GoError) (path : String) : Option GoError × FS :=
  let fs := fs.call (Syscall.Remove path)
  match err with
  | some e => (some e, fs)
  | none => (none, { fs with entries := fs.entries.delete path })

/-- Function `os.Rename` inside the root directory: fails when the source is
missing or the destination is a directory, else replaces the destination. -/
def Rename (fs : FS) (err : Option GoError) (src dst : String) : Option GoError × FS :=
  let fs := fs.call (Syscall.Rename src dst)
  match err with
  | some e => (some e, fs)
  | none =>
    match fs.entries.get src, fs.entries.get dst with
    | none, _ => (some (GoError.sys "rename" "ENOENT"), fs)
    | some _, some Node.dir => (some (GoError.sys "rename" "EISDIR"), fs)
    | some n, _ => (none, { fs with entries := (fs.entries.delete src).set dst n })

/-- Function `os.Stat`: size and modification time of an entry. -/
def Stat (fs : FS) (err : Option GoError) (path : String) : Except GoError (Nat × Nat) × FS :=
  let fs := fs.call (Syscall.Stat path)
  match err with
  | some e => (Except.error e, fs)
  | none =>
    match fs.entries.get path with
    | none => (Except.error (GoError.sys "stat" "ENOENT"), fs)
    | some (Node.file d t) => (Except.ok (d.length, t), fs)
    | some Node.dir => (Except.ok (0, 0), fs)

/-- What the environment decides during one `Open` call. -/
structure OpenEnv where
  openErr : Option GoError
  readFileErr : Option GoError
  statErr : Option GoError
  /-- A device error met by the reads of the opened file. -/
  readErr : Option GoError

/-- An open read handle (`io.ReadCloser` over an `*os.File`). -/
structure ReadCloser where
  /-- Bytes not read yet. -/
  data : Bytes
  /-- Error that a `Read` of this handle returns, if any. -/
  err : Option GoError
deriving DecidableEq, Repr

/-- Method `Read` with a buffer of `n` bytes: the error of the handle, else
`io.EOF` at the end of the file, else the next bytes, at most `n`. -/
def ReadCloser.Read (rc : ReadCloser) (n : Nat) : Bytes × Option GoError × ReadCloser :=
  match rc.err with
  | some e => ([], some e, rc)
  | none =>
    if rc.data = [] then ([], some GoError.eof, rc)
    else (rc.data.take n, none, { rc with data := rc.data.drop n })

/-- Function `os.ReadFile`. -/
def ReadFile (fs : FS) (err : Option GoError) (path : String) : Except GoError Bytes × FS :=
  let fs := fs.call (Syscall.ReadFile path)
  match err with
  | some e => (Except.error e, fs)
  | none =>
    match fs.entries.get path with
    | none => (Except.error (GoError.sys "open" "ENOENT"), fs)
    | some Node.dir => (Except.error (GoError.sys "read" "EISDIR"), fs)
    | some (Node.file d _) => (Except.ok d, fs)

/-- What the environment decides during one `List` call. -/
structure ListEnv where
  readDirErr : Option GoError
  /-- Failure of reading the sidecar of the named entry. -/
  readFileErr : String → Option GoError
  /-- Failure of `e.Info()` for the named entry. -/
  infoErr : String → Option GoError

/-- Byte-wise order of names, as `os.ReadDir` sorts its result. -/
def nameLE : List Char → List Char → Bool
  | [], _ => true
  | _ :: _, [] => false
  | a :: as, b :: bs =>
    if a.toNat < b.toNat then true else if b.toNat < a.toNat then false else nameLE as bs

/-- Function `os.ReadDir(rootDir)`: the entries sorted by name. -/
def ReadDir (fs : FS) (err : Option GoError) : Except GoError (List (String × Node)) × FS :=
  let fs := fs.call Syscall.ReadDir
  match err with
  | some e => (Except.error e, fs)
  | none =>
    (Except.ok (fs.entries.insertionSort (fun a b => nameLE a.1.data b.1.data = true)), fs)

namespace FilesystemStore

/-- Method `metaPath`, relative to the root directory. -/
def metaPath (filename : String) : String := filepath.Base filename ++ ".meta.json"

/-- Method `writeMeta`. An encoding failure leaves the truncated sidecar; a
failure of the deferred `Close` is only a warning. -/
def writeMeta (c : Codec) (fs : FS) (env : SaveEnv) (m : Metadata) : Option GoError × FS :=
  let path := metaPath m.Filename
  let fs := fs.call (Syscall.Create path)
  match env.metaCreateErr with
  | some e => (some e, fs)
  | none =>
    match fs.entries.get path with
    | some Node.dir => (some (GoError.sys "open" "EISDIR"), fs)
    | _ =>
      let fs := { fs with entries := fs.entries.set path (Node.file [] env.metaTime) }
      match env.metaEncodeErr with
      | some e => (some e, fs.call (Syscall.Close path))
      | none =>
        let fs := { fs with entries := fs.entries.set path (Node.file (c.encode m) env.metaTime) }
        (none, fs.call (Syscall.Close path))

/-- Method `FilesystemStore.SaveStream`. -/
def SaveStream (c : Codec) (env : SaveEnv) (fs : FS) (ctx : Context) (filename : String)
    (write : Option Producer) : Except GoError Metadata × FS :=
  match validateFilename filename with
  | some e => (Except.error e, fs)
  | none =>
  match write with
  | none => (Except.error (GoError.errorf "write func is nil"), fs)
  | some write =>
  match CreateTemp fs env with
  | (Except.error e, fs) => (Except.error e, fs)
  | (Except.ok tmpPath, fs) =>
    -- the goroutine: run the producer against the temp file, then sync
    let (w, written, werr) := write { data := [], space := env.space }
    let fs := { fs with entries := fs.entries.set tmpPath (Node.file w.data env.tmpTime) }
    let fs := fs.call (Syscall.Sync tmpPath)
    let werr := match env.syncErr with
      | some e => some (GoError.wrap "failed to sync temp file" e)
      | none => werr
    -- the select
    match ctx.done with
    | some cerr =>
      let fs := fs.call (Syscall.Close tmpPath)
      let (_, fs) := Remove fs env.removeErr tmpPath
      (Except.error cerr, fs)
    | none =>
    let fs := fs.call (Syscall.Close tmpPath)
    match env.closeErr with
    | some e =>
      let (_, fs) := Remove fs env.removeErr tmpPath
      (Except.error (GoError.wrap "failed to close temp file" e), fs)
    | none =>
    match werr with
    | some e =>
      let (_, fs) := Remove fs env.removeErr tmpPath
      (Except.error e, fs)
    | none =>
    let dstPath := filepath.Base filename
    match Rename fs env.renameErr tmpPath dstPath with
    | (some e, fs) =>
      let (_, fs) := Remove fs env.removeErr tmpPath
      (Except.error e, fs)
    | (none, fs) =>
    match Stat fs env.statErr dstPath with
    | (Except.error e, fs) => (Except.error e, fs)
    | (Except.ok st, fs) =>
    let m : Metadata :=
      { Filename := filepath.Base filename, SizeBytes := written,
        CreatedAt := st.2, UpdatedAt := env.now }
    match writeMeta c fs env m with
    | (some e, fs) => (Except.error e, fs)
    | (none, fs) => (Except.ok m, fs)

/-- Method `FilesystemStore.Open`. -/
def Open (c : Codec) (env : OpenEnv) (fs : FS) (_ctx : Context) (filename : String) :
    Except GoError (ReadCloser × Metadata) × FS :=
  match validateFilename filename with
  | some e => (Except.error e, fs)
  | none =>
  let path := filepath.Base filename
  let fs := fs.call (Syscall.Open path)
  match env.openErr with
  | some e => (Except.error e, fs)
  | none =>
  match fs.entries.get path with
  | none => (Except.error (GoError.sys "open" "ENOENT"), fs)
  | some node =>
    let f : ReadCloser := match node with
      | Node.file d _ => { data := d, err := env.readErr }
      | Node.dir => { data := [], err := some (GoError.sys "read" "EISDIR") }
    let (b, fs) := ReadFile fs env.readFileErr (metaPath filename)
    match b.toOption.bind c.decode with
    | some m => (Except.ok (f, m), fs)
    | none =>
      -- fallback to the stat of the open file
      let fs := fs.call (Syscall.Stat path)
      match env.statErr with
      | some e =>
        (Except.error (GoError.wrap "failed to stat file" e), fs.call (Syscall.Close path))
      | none =>
        let st : Nat × Nat := match node with
          | Node.file d t => (d.length, t)
          | Node.dir => (0, 0)
        (Except.ok (f, { Filename := filepath.Base filename, SizeBytes := st.1,
                         CreatedAt := st.2, UpdatedAt := st.2 }), fs)

/-- Body of the loop of `List` over the directory entries. -/
def listLoop (c : Codec) (env : ListEnv) :
    List (String × Node) → FS → List Metadata → List Metadata × FS
  | [], fs, out => (out, fs)
  | (name, node) :: es, fs, out =>
    match node with
    | Node.dir => listLoop c env es fs out
    | Node.file d t =>
      if strings.HasSuffix name ".meta.json" then listLoop c env es fs out
      else
        let (b, fs) := ReadFile fs (env.readFileErr name) (metaPath name)
        match b.toOption.bind c.decode with
        | some m => listLoop c env es fs (out ++ [m])
        | none =>
          let fs := fs.call (Syscall.Stat name)
          match env.infoErr name with
          | some _ => listLoop c env es fs out
          | none =>
            listLoop c env es fs
              (out ++ [{ Filename := name, SizeBytes := d.length, CreatedAt := t, UpdatedAt := t }])

/-- Method `FilesystemStore.List`. -/
def List (c : Codec) (env : ListEnv) (fs : FS) (_ctx : Context) :
    Except GoError (List Metadata) × FS :=
  match ReadDir fs env.readDirErr with
  | (Except.error e, fs) => (Except.error e, fs)
  | (Except.ok entries, fs) =>
    let (out, fs) := listLoop c env entries fs []
    (Except.ok out, fs)

end FilesystemStore

end storage

/-! ## Package `server` -/

namespace server

open storage

/-- Interface `FileStore`, over the state `σ` of the implementation. -/
structure FileStore (σ : Type) where
  SaveStream : σ → Context → String → Option Producer → Except GoError Metadata × σ
  Open : σ → Context → String → Except GoError (ReadCloser × Metadata) × σ
  List : σ → Context → Except GoError (List Metadata) × σ

/-- The `FilesystemStore` as a `FileStore`, in the environments of its calls. -/
def filesystemStore (c : Codec) (senv : SaveEnv) (oenv : OpenEnv) (lenv : ListEnv) :
    FileStore FS :=
  { SaveStream := FilesystemStore.SaveStream c senv
    Open := FilesystemStore.Open c oenv
    List := FilesystemStore.List c lenv }

/-- Message `UploadChunk`. -/
structure UploadChunk where
  Filename : String
  Data : Bytes
deriving DecidableEq, Repr

/-- Message `UploadResponse`. -/
structure UploadResponse where
  Filename : String
  SizeBytes : Int
deriving DecidableEq, Repr

/-- The server side of an upload stream: its context, the results of the
successive `Recv` calls (after them `Recv` returns `io.EOF`), and the failure of
`SendAndClose`, if any. -/
structure UploadServer where
  ctx : Context
  recv : List (Except GoError UploadChunk)
  sendErr : Option GoError

/-- The `for` loop of the write function of `Upload`, over the remaining `Recv`
results. -/
def recvLoop : List (Except GoError UploadChunk) → Writer → Int → Writer × Int × Option GoError
  | [], w, total => (w, total, none)
  | Except.error e :: _, w, total =>
    if e = GoError.eof then (w, total, none) else (w, total, some e)
  | Except.ok chunk :: rest, w, total =>
    if chunk.Data.length > 0 then
      match w.Write chunk.Data with
      | (w, n, some werr) => (w, total + n, some werr)
      | (w, n, none) => recvLoop rest w (total + n)
    else recvLoop rest w total

/-- The write function that `Upload` hands to `SaveStream`. -/
def uploadWrite (firstChunk : UploadChunk) (rest : List (Except GoError UploadChunk)) :
    Producer := fun w =>
  let total : Int := 0
  if firstChunk.Data.length > 0 then
    match w.Write firstChunk.Data with
    | (w, n, some err) => (w, total + n, some err)
    | (w, n, none) => recvLoop rest w (total + n)
  else recvLoop rest w total

/-- Method `FileServiceServer.Upload`. -/
def Upload {σ : Type} (store : FileStore σ) (s : σ) (stream : UploadServer) :
    Except GoError UploadResponse × σ :=
  match stream.recv with
  | [] => (Except.error GoError.eof, s)
  | Except.error err :: _ => (Except.error err, s)
  | Except.ok firstChunk :: rest =>
    let filename := firstChunk.Filename
    if filename = "" then
      (Except.error (GoError.errorf "filename is required in first chunk"), s)
    else
      match store.SaveStream s stream.ctx filename (some (uploadWrite firstChunk rest)) with
      | (Except.error err, s) => (Except.error err, s)
      | (Except.ok m, s) =>
        match stream.sendErr with
        | some err => (Except.error err, s)
        | none => (Except.ok { Filename := m.Filename, SizeBytes := m.SizeBytes }, s)

/-- The server side of a download stream: its context and the failure of the
`i`-th `Send`, if any. -/
structure DownloadServer where
  ctx : Context
  sendErr : Nat → Option GoError

/-- Size of the buffer of `Download`. -/
def bufSize : Nat := 64 * 1024

/-- The `for` loop of `Download`: `sent` are the chunks sent so far. The loop
ends with the chunks sent and the error returned; `none` is out of fuel. -/
def downloadLoop (stream : DownloadServer) : Nat → ReadCloser → List Bytes →
    Option (List Bytes × Option GoError)
  | 0, _, _ => none
  | fuel + 1, rc, sent =>
    match rc.Read bufSize with
    | (p, rerr, rc) =>
      if p.length > 0 then
        match stream.sendErr sent.length with
        | some err => some (sent, some err)
        | none =>
          match rerr with
          | some GoError.eof => some (sent ++ [p], none)
          | some e => some (sent ++ [p], some e)
          | none => downloadLoop stream fuel rc (sent ++ [p])
      else
        match rerr with
        | some GoError.eof => some (sent, none)
        | some e => some (sent, some e)
        | none => downloadLoop stream fuel rc sent

/-- Method `FileServiceServer.Download`: the chunks sent and the error returned. -/
def Download {σ : Type} (store : FileStore σ) (s : σ) (filename : String)
    (stream : DownloadServer) : Option (List Bytes × Option GoError) × σ :=
  match store.Open s stream.ctx filename with
  | (Except.error err, s) => (some ([], some err), s)
  | (Except.ok (rc, _), s) => (downloadLoop stream (rc.data.length + 1) rc [], s)

end server

/-! ## Package `net`: `SplitHostPort` -/

namespace net

/-- Function `bytealg.IndexByteString`; `none` is `-1`. -/
def indexByte : List Char → Char → Option Nat
  | [], _ => none
  | x :: xs, c => if x = c then some 0 else (indexByte xs c).map (fun i => i + 1)

/-- Function `bytealg.LastIndexByteString`; `none` is `-1`. -/
def lastIndexByte : List Char → Char → Option Nat
  | [], _ => none
  | x :: xs, c =>
    match lastIndexByte xs c with
    | some i => some (i + 1)
    | none => if x = c then some 0 else none

/-- The `*AddrError` built by `addrErr`. -/
def addrErr (why : String) : GoError := GoError.sys "address" why

/-- Function `net.SplitHostPort`. -/
def SplitHostPort (hostport : String) : Except GoError (String × String) :=
  let s := hostport.data
  match lastIndexByte s ':' with
  | none => Except.error (addrErr "missing port in address")
  | some i =>
    if s.head? = some '[' then
      match indexByte s ']' with
      | none => Except.error (addrErr "missing ']' in address")
      | some e =>
        if e + 1 = s.length then Except.error (addrErr "missing port in address")
        else if e + 1 = i then
          let host := (s.take e).drop 1
          if (indexByte (s.drop 1) '[').isSome then
            Except.error (addrErr "unexpected '[' in address")
          else if (indexByte (s.drop (e + 1)) ']').isSome then
            Except.error (addrErr "unexpected ']' in address")
          else Except.ok (String.mk host, String.mk (s.drop (i + 1)))
        else if s.get? (e + 1) = some ':' then
          Except.error (addrErr "too many colons in address")
        else Except.error (addrErr "missing port in address")
    else
      let host := s.take i
      if (indexByte host ':').isSome then Except.error (addrErr "too many colons in address")
      else if (indexByte s '[').isSome then Except.error (addrErr "unexpected '[' in address")
      else if (indexByte s ']').isSome then Except.error (addrErr "unexpected ']' in address")
      else Except.ok (String.mk host, String.mk (s.drop (i + 1)))

end net

/-! ## Package `limiter` -/

namespace limiter

open storage (Context)

/-- Struct `bucket`: the buffered channel `ch`, by its capacity and its length. -/
structure bucket where
  cap : Nat
  len : Nat
deriving DecidableEq, Repr

/-- Function `newBucket`. -/
def newBucket (n : Int) : bucket :=
  let n := if n ≤ 0 then 1 else n
  { cap := n.toNat, len := 0 }

/-- Method `acquireWithContext`: the `select` sends into the channel when there is
room, returns the error of the context when it observes `ctx.Done()`, and
otherwise blocks (`none`). -/
def bucket.acquireWithContext (b : bucket) (ctx : Context) : Option (bucket × Option GoError) :=
  match ctx.done with
  | some err => some (b, some err)
  | none => if b.len < b.cap then some ({ b with len := b.len + 1 }, none) else none

/-- Method `release`: receive one element from the channel; blocks (`none`) on an
empty channel. -/
def bucket.release (b : bucket) : Option bucket :=
  if 0 < b.len then some { b with len := b.len - 1 } else none

/-- Struct `perClientLimits`: the buckets by category. -/
structure perClientLimits where
  buckets : GoMap bucket
deriving DecidableEq, Repr

/-- Struct `Limiter`. -/
structure Limiter where
  clients : GoMap perClientLimits
  ioMax : Int
  listMax : Int
deriving DecidableEq, Repr

/-- Function `New`. -/
def New (ioMax listMax : Int) : Limiter :=
  let ioMax := if ioMax ≤ 0 then 1 else ioMax
  let listMax := if listMax ≤ 0 then 1 else listMax
  { clients := [], ioMax := ioMax, listMax := listMax }

/-- Method `getClient`: the state of the client, created on first use. -/
def Limiter.getClient (l : Limiter) (addr : String) : perClientLimits × Limiter :=
  match l.clients.get addr with
  | some pcl => (pcl, l)
  | none =>
    let pcl : perClientLimits := { buckets := [] }
    (pcl, { l with clients := l.clients.set addr pcl })

/-- Method `getBucket`: the bucket of the category, created on first use. -/
def perClientLimits.getBucket (p : perClientLimits) (category : String) (size : Int) :
    bucket × perClientLimits :=
  match p.buckets.get category with
  | some b => (b, p)
  | none =>
    let b := newBucket size
    (b, { p with buckets := p.buckets.set category b })

/-- Method `classify`. -/
def Limiter.classify (l : Limiter) (fullMethod : String) : String × Int :=
  if strings.HasSuffix fullMethod "/ListFiles" then ("list", l.listMax)
  else ("io", l.ioMax)

/-- Function `normalizeIP`. -/
def normalizeIP (addr : String) : String :=
  match net.SplitHostPort addr with
  | Except.error _ => addr
  | Except.ok (host, _) => host

/-- The release function returned by `acquire`: a closure over the bucket, which
is the bucket of one client and one category. -/
structure Release where
  addr : String
  category : String
deriving DecidableEq, Repr

/-- Write a bucket through the two maps (the maps hold pointers). -/
def Limiter.putBucket (l : Limiter) (addr category : String) (p : perClientLimits)
    (b : bucket) : Limiter :=
  { l with clients := l.clients.set addr { p with buckets := p.buckets.set category b } }

/-- Client identity of a call: `"unknown"` without a peer. -/
def clientOf (ctx : Context) : String :=
  match ctx.peer with
  | some a => normalizeIP a
  | none => "unknown"

/-- Method `acquire`: the limiter afterwards, and the release function or the
error; `none` while the call is blocked. -/
def Limiter.acquire (l : Limiter) (ctx : Context) (fullMethod : String) :
    Limiter × Option (Except GoError Release) :=
  let addr := clientOf ctx
  let (cat, size) := l.classify fullMethod
  let (pcl, l) := l.getClient addr
  let (b, pcl) := pcl.getBucket cat size
  let l := l.putBucket addr cat pcl b
  match b.acquireWithContext ctx with
  | none => (l, none)
  | some (_, some err) => (l, some (Except.error err))
  | some (b, none) => (l.putBucket addr cat pcl b, some (Except.ok { addr := addr, category := cat }))

/-- Running the release function `func() { bucket.release() }`; `none` when the
receive blocks. -/
def Limiter.release (l : Limiter) (r : Release) : Option Limiter :=
  match l.clients.get r.addr with
  | none => none
  | some pcl =>
    match pcl.buckets.get r.category with
    | none => none
    | some b =>
      match b.release with
      | none => none
      | some b => some (l.putBucket r.addr r.category pcl b)

/-- The bucket of a client and a category, if it exists. -/
def Limiter.bucketOf (l : Limiter) (addr category : String) : Option bucket :=
  (l.clients.get addr).bind (fun p => p.buckets.get category)

/-- Occupancy of the bucket of a client and a category: the length of its
channel, `0` while the bucket does not exist. -/
def Limiter.occupancy (l : Limiter) (addr category : String) : Nat :=
  match l.bucketOf addr category with
  | some b => b.len
  | none => 0

/-- What one call through an interceptor does. -/
structure Intercepted (ρ : Type) where
  /-- What the interceptor returns. -/
  ret : ρ
  /-- The limiter while the handler ran; `none` when the handler was not invoked. -/
  during : Option Limiter
  /-- How many times the deferred release ran. -/
  released : Nat
  /-- The limiter when the interceptor returns. -/
  after : Limiter

/-- Body shared by the two interceptors: acquire, on an error return it, else run
the handler and then the deferred release. `none` while the call is blocked. -/
def intercept {ρ : Type} (l : Limiter) (ctx : Context) (fullMethod : String)
    (onError : GoError → ρ) (handler : Unit → ρ) : Option (Intercepted ρ) :=
  match l.acquire ctx fullMethod with
  | (_, none) => none
  | (l, some (Except.error err)) =>
    some { ret := onError err, during := none, released := 0, after := l }
  | (l, some (Except.ok release)) =>
    let ret := handler ()
    match l.release release with
    | none => none
    | some l' => some { ret := ret, during := some l, released := 1, after := l' }

/-- Method `UnaryServerInterceptor`, applied to a call: the handler returns a
response and an error. -/
def Limiter.UnaryServerInterceptor {α : Type} (l : Limiter) (ctx : Context)
    (fullMethod : String) (handler : Unit → Option α × Option GoError) :
    Option (Intercepted (Option α × Option GoError)) :=
  intercept l ctx fullMethod (fun err => (none, some err)) handler

/-- Method `StreamServerInterceptor`, applied to a call on a stream with context
`ctx`: the handler returns an error. -/
def Limiter.StreamServerInterceptor (l : Limiter) (ctx : Context)
    (fullMethod : String) (handler : Unit → Option GoError) :
    Option (Intercepted (Option GoError)) :=
  intercept l ctx fullMethod (fun err => some err) handler

/-- One step of the environment of a limiter. -/
inductive Event where
  /-- A call reaches `acquire`. -/
  | acquire (ctx : Context) (fullMethod : String)
  /-- A holder runs its release function. -/
  | release (r : Release)

/-- A limiter together with the release functions handed out and not yet run. -/
structure Config where
  lim : Limiter
  held : List Release
deriving DecidableEq, Repr

/-- One step: an acquire hands out a release function when it is granted, a
release is performed by a holder only. -/
def step (c : Config) : Event → Option Config
  | Event.acquire ctx fullMethod =>
    match c.lim.acquire ctx fullMethod with
    | (l, some (Except.ok r)) => some { lim := l, held := r :: c.held }
    | (l, _) => some { lim := l, held := c.held }
  | Event.release r =>
    if r ∈ c.held then
      match c.lim.release r with
      | some l => some { lim := l, held := c.held.erase r }
      | none => none
    else none

/-- The configuration after a sequence of steps. -/
def run (c : Config) : List Event → Option Config
  | [] => some c
  | e :: es => (step c e).bind (fun c => run c es)

end limiter

/-! ## Concrete environments -/

namespace sample

open storage server

/-- A codec that writes nothing and parses nothing. -/
def nullCodec : Codec := { encode := fun _ => [], decode := fun _ => none }

/-- An environment of `SaveStream` without failures; the temp file is `.upload-1`. -/
def quiet : SaveEnv :=
  { rands := [1], createTempErr := none, space := none, tmpTime := 4, syncErr := none,
    closeErr := none, removeErr := none, renameErr := none, statErr := none,
    metaCreateErr := none, metaEncodeErr := none, metaCloseErr := none, metaTime := 5,
    now := 6 }

/-- An environment of `Open` without failures. -/
def quietOpen : OpenEnv := { openErr := none, readFileErr := none, statErr := none, readErr := none }

/-- An environment of `List` without failures. -/
def quietList : ListEnv :=
  { readDirErr := none, readFileErr := fun _ => none, infoErr := fun _ => none }

/-- The empty store. -/
def emptyFS : FS := { entries := [], calls := [] }

/-- A context that is not cancelled. -/
def background : Context := { peer := none, done := none }

/-- A producer that writes `p` and honestly reports what the writer accepted. -/
def honest (p : Bytes) : Producer := fun w =>
  match w.Write p with
  | (w, n, err) => (w, n, err)

/-- A producer that writes `p` and reports a count of zero. -/
def silent (p : Bytes) : Producer := fun w => ((w.Write p).1, 0, none)

/-- The filesystem store in the quiet environments. -/
def store : FileStore FS := filesystemStore nullCodec quiet quietOpen quietList

/-- An upload of `a.txt` in two chunks, `[1, 2]` and `[3]`. -/
def upload : UploadServer :=
  { ctx := background,
    recv := [{ Filename := "a.txt", Data := [1, 2] }, { Filename := "", Data := [3] }].map Except.ok,
    sendErr := none }

/-- A download stream on which every `Send` succeeds. -/
def download : DownloadServer := { ctx := background, sendErr := fun _ => none }

end sample

/-! ## A concrete codec -/

namespace sample

open storage

/-- Unary numeral: `n` ones and a zero. -/
def encNat (n : Nat) : Bytes := List.replicate n 1 ++ [0]

/-- Read a unary numeral off the front. -/
def decNat : Bytes → Option (Nat × Bytes)
  | [] => none
  | b :: bs => if b = 0 then some (0, bs) else (decNat bs).map (fun r => (r.1 + 1, r.2))

/-- The characters of a name, one numeral each. -/
def encChars : List Char → Bytes
  | [] => []
  | ch :: cs => encNat ch.toNat ++ encChars cs

/-- Read that many characters off the front. -/
def decChars : Nat → Bytes → Option (List Char × Bytes)
  | 0, bs => some ([], bs)
  | k + 1, bs =>
    match decNat bs with
    | none => none
    | some (n, bs) => (decChars k bs).map (fun r => (Char.ofNat n :: r.1, r.2))

/-- An integer as a sign and a magnitude. -/
def encInt (i : Int) : Bytes := encNat (if i < 0 then 1 else 0) ++ encNat i.natAbs

/-- A record as the numerals of its fields. -/
def encodeMeta (m : Metadata) : Bytes :=
  encNat m.Filename.data.length ++ encChars m.Filename.data ++ encInt m.SizeBytes ++
    encNat m.CreatedAt ++ encNat m.UpdatedAt

/-- Parse a record; `none` on malformed input. -/
def decodeMeta (bs : Bytes) : Option Metadata :=
  match decNat bs with
  | none => none
  | some (k, bs) =>
  match decChars k bs with
  | none => none
  | some (cs, bs) =>
  match decNat bs with
  | none => none
  | some (sign, bs) =>
  match decNat bs with
  | none => none
  | some (abs, bs) =>
  match decNat bs with
  | none => none
  | some (created, bs) =>
  match decNat bs with
  | none => none
  | some (updated, _) =>
    some { Filename := String.mk cs, SizeBytes := if sign = 0 then (abs : Int) else -(abs : Int),
           CreatedAt := created, UpdatedAt := updated }

/-- A codec that parses what it writes. -/
def unaryCodec : Codec := { encode := encodeMeta, decode := decodeMeta }

end sample

namespace storage

/-- One call of `SaveStream`: its environment, context, filename and producer. -/
structure SaveCall where
  env : SaveEnv
  ctx : Context
  filename : String
  write : Producer

/-- A sequence of `SaveStream` calls, one after the other, each of which
succeeds; `none` when one of them fails. -/
def saveAll (c : Codec) : FS → List SaveCall → Option FS
  | fs, [] => some fs
  | fs, s :: ss =>
    match FilesystemStore.SaveStream c s.env fs s.ctx s.filename (some s.write) with
    | (Except.ok _, fs) => saveAll c fs ss
    | (Except.error _, _) => none

end storage

namespace storage

/-- The directory after the names `ns` were saved into an empty store: the keys
are unique, every entry is a saved name or the sidecar of one, and every saved
name has its data file and a sidecar that encodes a record of that name. -/
def Saved (c : Codec) (E : GoMap Node) (ns : List String) : Prop :=
  E.keys.Nodup ∧
  (∀ k v, (k, v) ∈ E → k ∈ ns ∨ ∃ n ∈ ns, k = n ++ ".meta.json") ∧
  (∀ n ∈ ns, validateFilename n = none ∧ (∃ d t, E.get n = some (Node.file d t)) ∧
    ∃ m t, E.get (n ++ ".meta.json") = some (Node.file (c.encode m) t) ∧ m.Filename = n)

end storage

namespace server

/-- The bytes of a sequence of chunks, in arrival order. -/
def payload (chunks : List UploadChunk) : Bytes := (chunks.map (fun ch => ch.Data)).flatten

end server

namespace limiter

/-- The bucket that a call works on: the existing one, or a new one. -/
def bucketFor (l : Limiter) (addr cat : String) (size : Int) : bucket :=
  (l.bucketOf addr cat).getD (newBucket size)

/-- The size that `classify` attaches to a category. -/
def sizeFor (l : Limiter) (cat : String) : Int :=
  if cat = "list" then l.listMax else l.ioMax

/-- Invariant of a configuration: the length of the channel of every bucket is
the number of its release functions not yet run, it is within the capacity, and
the capacity is the one of the category. -/
def Inv (c : Config) : Prop :=
  ∀ a cat,
    (bucketFor c.lim a cat (sizeFor c.lim cat)).len = c.held.count { addr := a, category := cat } ∧
    (bucketFor c.lim a cat (sizeFor c.lim cat)).len ≤ (bucketFor c.lim a cat (sizeFor c.lim cat)).cap ∧
    (bucketFor c.lim a cat (sizeFor c.lim cat)).cap = (newBucket (sizeFor c.lim cat)).cap

end limiter

namespace sample

open storage

/-- An environment of `SaveStream` in which only the encoding of the sidecar fails. -/
def noSidecar : SaveEnv := { quiet with metaEncodeErr := some (GoError.sys "write" "EIO") }

/-- Two saves, of `a.txt` and of `b.txt`. -/
def twoSaves : List SaveCall :=
  [{ env := quiet, ctx := background, filename := "a.txt", write := honest [1, 2] },
   { env := quiet, ctx := background, filename := "b.txt", write := honest [3] }]

end sample

/-! # Theorems -/

/-! ## Lemmas on maps -/

namespace GoMap

variable {V : Type}

theorem delete_nil (k : String) : delete ([] : GoMap V) k = [] := rfl

theorem delete_cons_self (m : GoMap V) (k : String) (v : V) :
    delete ((k, v) :: m) k = delete m k := by
  simp [delete, List.filter_cons]

theorem delete_cons_ne (m : GoMap V) {k k' : String} (v : V) (h : k' ≠ k) :
    delete ((k', v) :: m) k = (k', v) :: delete m k := by
  simp [delete, List.filter_cons, h]

theorem get_cons_self (m : GoMap V) (k : String) (v : V) : get ((k, v) :: m) k = some v := by
  simp [get]

theorem get_cons_ne (m : GoMap V) {k k' : String} (v : V) (h : k' ≠ k) :
    get ((k', v) :: m) k = get m k := by
  simp [get, h]

theorem get_delete_self (m : GoMap V) (k : String) : (m.delete k).get k = none := by
  induction m with
  | nil => rfl
  | cons e m ih =>
    obtain ⟨k', v⟩ := e
    by_cases h : k' = k
    · subst h; rw [delete_cons_self]; exact ih
    · rw [delete_cons_ne m v h, get_cons_ne _ v h]; exact ih

theorem get_delete_ne (m : GoMap V) {k k' : String} (h : k' ≠ k) :
    (m.delete k).get k' = m.get k' := by
  induction m with
  | nil => rfl
  | cons e m ih =>
    obtain ⟨k₀, v⟩ := e
    by_cases h₀ : k₀ = k
    · subst h₀
      rw [delete_cons_self, get_cons_ne m v (Ne.symm h)]; exact ih
    · rw [delete_cons_ne m v h₀]
      by_cases h₁ : k₀ = k'
      · subst h₁; rw [get_cons_self, get_cons_self]
      · rw [get_cons_ne _ v h₁, get_cons_ne _ v h₁]; exact ih

theorem get_set_self (m : GoMap V) (k : String) (v : V) : (m.set k v).get k = some v :=
  get_cons_self _ k v

theorem get_set_ne (m : GoMap V) {k k' : String} (v : V) (h : k' ≠ k) :
    (m.set k v).get k' = m.get k' := by
  unfold set
  rw [get_cons_ne _ v (Ne.symm h), get_delete_ne m h]

theorem delete_of_get_none (m : GoMap V) {k : String} (h : m.get k = none) :
    m.delete k = m := by
  induction m with
  | nil => rfl
  | cons e m ih =>
    obtain ⟨k', v⟩ := e
    by_cases h' : k' = k
    · subst h'; rw [get_cons_self] at h; cases h
    · rw [get_cons_ne m v h'] at h
      rw [delete_cons_ne m v h', ih h]

theorem delete_delete (m : GoMap V) (k : String) : (m.delete k).delete k = m.delete k :=
  delete_of_get_none _ (get_delete_self m k)

theorem delete_set (m : GoMap V) (k : String) (v : V) :
    (m.set k v).delete k = m.delete k := by
  unfold set
  rw [delete_cons_self, delete_delete]

theorem set_set (m : GoMap V) (k : String) (v w : V) :
    (m.set k v).set k w = m.set k w := by
  show (k, w) :: delete (m.set k v) k = (k, w) :: delete m k
  rw [delete_set]

end GoMap

/-! ## The storage engine -/

namespace storage

open FilesystemStore

theorem call_entries (fs : FS) (c : Syscall) : (fs.call c).entries = fs.entries := rfl

theorem pickTemp_fresh (entries : GoMap Node) (rands : List Nat) (name : String)
    (h : pickTemp entries rands = some name) : entries.get name = none := by
  induction rands with
  | nil => simp [pickTemp] at h
  | cons r rs ih =>
    unfold pickTemp at h
    split at h
    · rename_i hr
      cases h
      simpa [Option.isNone_iff_eq_none] using hr
    · exact ih h

theorem CreateTemp_error (fs fs' : FS) (env : SaveEnv) (e : GoError)
    (h : CreateTemp fs env = (Except.error e, fs')) :
    fs'.entries = fs.entries ∧ fs'.calls = fs.calls ++ [Syscall.CreateTemp ".upload-*"] := by
  unfold CreateTemp at h
  dsimp only at h
  split at h
  · cases h; exact ⟨rfl, rfl⟩
  · split at h
    · cases h; exact ⟨rfl, rfl⟩
    · cases h

theorem CreateTemp_ok (fs fs' : FS) (env : SaveEnv) (tmp : String)
    (h : CreateTemp fs env = (Except.ok tmp, fs')) :
    fs.entries.get tmp = none ∧
      fs'.entries = fs.entries.set tmp (Node.file [] env.tmpTime) ∧
      fs'.calls = fs.calls ++ [Syscall.CreateTemp ".upload-*"] := by
  unfold CreateTemp at h
  dsimp only at h
  split at h
  · cases h
  · split at h
    · cases h
    · rename_i name hp
      cases h
      exact ⟨pickTemp_fresh _ _ _ hp, rfl, rfl⟩

theorem Remove_entries (fs : FS) (path : String) :
    (Remove fs none path).2.entries = fs.entries.delete path := rfl

theorem Remove_calls (fs : FS) (err : Option GoError) (path : String) :
    (Remove fs err path).2.calls = fs.calls ++ [Syscall.Remove path] := by
  unfold Remove; cases err <;> rfl

theorem call_calls (fs : FS) (c : Syscall) : (fs.call c).calls = fs.calls ++ [c] := rfl

/-- Cleanup of the temp file restores the directory. -/
theorem cleanup_entries (entries : GoMap Node) (tmp : String) (x y : Node)
    (h : entries.get tmp = none) :
    ((entries.set tmp x).set tmp y).delete tmp = entries := by
  rw [GoMap.set_set, GoMap.delete_set, GoMap.delete_of_get_none _ h]

end storage

namespace storage

open FilesystemStore

/-- C1: `validateFilename` accepts a name exactly when it is non-empty, equals its
own base name, is neither `.` nor `..` and contains no path separator; and for a
name it rejects, `SaveStream` and `Open` return an error and leave the file
system as it was, without issuing any call of the `os` package. -/
theorem validateFilename_contract (c : Codec) (name : String) :
    (validateFilename name = none ↔
      (name ≠ "" ∧ filepath.Base name = name ∧ name ≠ "." ∧ name ≠ ".." ∧
        filepath.Separator ∉ name.data)) ∧
    (validateFilename name ≠ none →
      ∀ (senv : SaveEnv) (oenv : OpenEnv) (fs : FS) (ctx : Context) (write : Option Producer),
        (∃ e, SaveStream c senv fs ctx name write = (Except.error e, fs)) ∧
        (∃ e, Open c oenv fs ctx name = (Except.error e, fs))) := by
  constructor
  · unfold validateFilename strings.ContainsRune
    by_cases h1 : name = ""
    · simp [h1]
    · by_cases h2 : filepath.Base name = name
      · by_cases h3 : name = "."
        · simp [h3]
        · by_cases h4 : name = ".."
          · simp [h4]
          · by_cases h5 : filepath.Separator ∈ name.data <;> simp [h1, h2, h3, h4, h5]
      · simp [h1, h2]
  · intro h senv oenv fs ctx write
    cases hv : validateFilename name with
    | none => exact absurd hv h
    | some e =>
      refine ⟨⟨e, ?_⟩, ⟨e, ?_⟩⟩
      · unfold SaveStream; rw [hv]
      · unfold Open; rw [hv]

/-- C1, at the name `../secret`: it is rejected, and nothing is touched. -/
theorem validateFilename_contract_witness :
    validateFilename "../secret" ≠ none ∧
    ((∃ e, SaveStream ⟨fun _ => [], fun _ => none⟩
        ⟨[1], none, none, 0, none, none, none, none, none, none, none, none, 0, 0⟩
        ⟨[], []⟩ ⟨none, none⟩ "../secret" none = (Except.error e, ⟨[], []⟩)) ∧
     (∃ e, Open ⟨fun _ => [], fun _ => none⟩ ⟨none, none, none, none⟩
        ⟨[], []⟩ ⟨none, none⟩ "../secret" = (Except.error e, ⟨[], []⟩))) :=
  ⟨by decide,
   (validateFilename_contract ⟨fun _ => [], fun _ => none⟩ "../secret").2 (by decide)
      ⟨[1], none, none, 0, none, none, none, none, none, none, none, none, 0, 0⟩
      ⟨none, none, none, none⟩ ⟨[], []⟩ ⟨none, none⟩ none⟩

end storage

namespace storage

open FilesystemStore

/-- C4 as stated fails when the removal of the temp file itself fails, which the
program only logs: an upload of the valid name `a.txt` into the empty store is
cancelled, `SaveStream` returns the context error, and the temp file
`.upload-1` stays in the root directory, which was empty before the call. -/
theorem cancel_with_failed_removal :
    validateFilename "a.txt" = none ∧
    SaveStream ⟨fun _ => [], fun _ => none⟩
        ⟨[1], none, none, 0, none, none, some (GoError.sys "remove" "EPERM"),
          none, none, none, none, none, 0, 0⟩
        ⟨[], []⟩ ⟨none, some GoError.canceled⟩ "a.txt"
        (some (fun w => ((w.Write [1, 2]).1, 2, none)))
      = (Except.error GoError.canceled,
         ⟨[(".upload-1", Node.file [1, 2] 0)],
          [Syscall.CreateTemp ".upload-*", Syscall.Sync ".upload-1",
           Syscall.Close ".upload-1", Syscall.Remove ".upload-1"]⟩) ∧
    (SaveStream ⟨fun _ => [], fun _ => none⟩
        ⟨[1], none, none, 0, none, none, some (GoError.sys "remove" "EPERM"),
          none, none, none, none, none, 0, 0⟩
        ⟨[], []⟩ ⟨none, some GoError.canceled⟩ "a.txt"
        (some (fun w => ((w.Write [1, 2]).1, 2, none)))).2.entries
      ≠ (⟨[], []⟩ : FS).entries := by
  decide

/-- C4, amended: for a valid filename, every store state and every producer, when
`SaveStream` ends because the cancellation was observed or because the producer
returned an error, and the removal of the temp file does not fail, `SaveStream`
returns an error and the entries of the root directory are exactly those before
the call (the old file and its sidecar included, byte for byte); the calls
issued are the creation of the temp file and, when it was created, its sync,
close and removal: no rename, and no sidecar is created. -/
theorem SaveStream_abort_restores (c : Codec) (env : SaveEnv) (fs : FS) (ctx : Context)
    (filename : String) (write : Producer)
    (hvalid : validateFilename filename = none)
    (hremove : env.removeErr = none)
    (habort : ctx.done ≠ none ∨ (write { data := [], space := env.space }).2.2 ≠ none) :
    (∃ e, (SaveStream c env fs ctx filename (some write)).1 = Except.error e) ∧
    (SaveStream c env fs ctx filename (some write)).2.entries = fs.entries ∧
    ((SaveStream c env fs ctx filename (some write)).2.calls
        = fs.calls ++ [Syscall.CreateTemp ".upload-*"] ∨
      ∃ tmp, (SaveStream c env fs ctx filename (some write)).2.calls
        = fs.calls ++ [Syscall.CreateTemp ".upload-*", Syscall.Sync tmp,
            Syscall.Close tmp, Syscall.Remove tmp]) := by
  unfold SaveStream
  rw [hvalid]
  dsimp only
  rcases hct : CreateTemp fs env with ⟨_ | tmp, fs1⟩
  · exact ⟨⟨_, rfl⟩, (CreateTemp_error _ _ _ _ hct).1, Or.inl (CreateTemp_error _ _ _ _ hct).2⟩
  · obtain ⟨hfresh, hfs1, hcalls⟩ := CreateTemp_ok _ _ _ _ hct
    rcases hw : write { data := [], space := env.space } with ⟨w, written, werr⟩
    rw [hw] at habort
    dsimp only
    cases hdone : ctx.done with
    | some cerr =>
      refine ⟨⟨cerr, rfl⟩, ?_, ?_⟩
      · simp only [hremove, Remove_entries, call_entries, hfs1]
        exact cleanup_entries _ _ _ _ hfresh
      · exact Or.inr ⟨tmp, by simp [Remove_calls, call_calls, hcalls]⟩
    | none =>
      simp only [hdone, ne_eq, not_true_eq_false, false_or] at habort
      cases hclose : env.closeErr with
      | some e =>
        refine ⟨⟨_, rfl⟩, ?_, ?_⟩
        · simp only [hremove, Remove_entries, call_entries, hfs1]
          exact cleanup_entries _ _ _ _ hfresh
        · exact Or.inr ⟨tmp, by simp [Remove_calls, call_calls, hcalls]⟩
      | none =>
        cases hsync : env.syncErr with
        | some e =>
          refine ⟨⟨_, rfl⟩, ?_, ?_⟩
          · simp only [hremove, Remove_entries, call_entries, hfs1]
            exact cleanup_entries _ _ _ _ hfresh
          · exact Or.inr ⟨tmp, by simp [Remove_calls, call_calls, hcalls]⟩
        | none =>
          cases werr with
          | none => exact absurd rfl habort
          | some e =>
            refine ⟨⟨_, rfl⟩, ?_, ?_⟩
            · simp only [hremove, Remove_entries, call_entries, hfs1]
              exact cleanup_entries _ _ _ _ hfresh
            · exact Or.inr ⟨tmp, by simp [Remove_calls, call_calls, hcalls]⟩

/-- C4, amended, at a cancelled overwrite of `a.txt`: the old file and its sidecar
are what the directory holds afterwards. -/
theorem SaveStream_abort_restores_witness :
    (∃ e, (SaveStream ⟨fun _ => [], fun _ => none⟩
        ⟨[1], none, none, 0, none, none, none, none, none, none, none, none, 0, 0⟩
        ⟨[("a.txt", Node.file [7] 3), ("a.txt.meta.json", Node.file [9] 3)], []⟩
        ⟨none, some GoError.canceled⟩ "a.txt"
        (some (fun w => ((w.Write [1, 2]).1, 2, none)))).1 = Except.error e) ∧
    (SaveStream ⟨fun _ => [], fun _ => none⟩
        ⟨[1], none, none, 0, none, none, none, none, none, none, none, none, 0, 0⟩
        ⟨[("a.txt", Node.file [7] 3), ("a.txt.meta.json", Node.file [9] 3)], []⟩
        ⟨none, some GoError.canceled⟩ "a.txt"
        (some (fun w => ((w.Write [1, 2]).1, 2, none)))).2.entries
      = [("a.txt", Node.file [7] 3), ("a.txt.meta.json", Node.file [9] 3)] :=
  let h := SaveStream_abort_restores ⟨fun _ => [], fun _ => none⟩
    ⟨[1], none, none, 0, none, none, none, none, none, none, none, none, 0, 0⟩
    ⟨[("a.txt", Node.file [7] 3), ("a.txt.meta.json", Node.file [9] 3)], []⟩
    ⟨none, some GoError.canceled⟩ "a.txt" (fun w => ((w.Write [1, 2]).1, 2, none))
    (by decide) rfl (Or.inl (by decide))
  ⟨h.1, h.2.1⟩

end storage

namespace storage

open FilesystemStore

theorem Base_of_valid {name : String} (h : validateFilename name = none) :
    filepath.Base name = name := by
  unfold validateFilename at h
  by_cases h1 : name = ""
  · simp [h1] at h
  · by_cases h2 : filepath.Base name = name
    · exact h2
    · simp [h1, h2] at h

theorem append_meta_ne (name : String) : name ++ ".meta.json" ≠ name := by
  intro h
  have := congrArg (fun s => s.data.length) h
  simp [String.data_append] at this

theorem metaPath_of_valid {name : String} (h : validateFilename name = none) :
    metaPath name = name ++ ".meta.json" := by
  unfold metaPath; rw [Base_of_valid h]

/-- The directory after the temp file was written and renamed onto `dst`. -/
theorem rename_entries (entries : GoMap Node) (tmp dst : String) (x y : Node)
    (h : entries.get tmp = none) :
    (((entries.set tmp x).set tmp y).delete tmp).set dst y = entries.set dst y := by
  rw [cleanup_entries _ _ _ _ h]

theorem Rename_ok (fs fs' : FS) (err : Option GoError) (src dst : String)
    (h : Rename fs err src dst = (none, fs')) :
    ∃ n, fs.entries.get src = some n ∧ fs'.entries = (fs.entries.delete src).set dst n := by
  unfold Rename at h
  dsimp only [call_entries] at h
  cases err with
  | some e => cases h
  | none =>
    dsimp only at h
    cases hsrc : fs.entries.get src with
    | none => rw [hsrc] at h; cases h
    | some n =>
      rw [hsrc] at h
      cases hdst : fs.entries.get dst with
      | none => rw [hdst] at h; cases h; exact ⟨n, rfl, rfl⟩
      | some o =>
        rw [hdst] at h
        cases o with
        | dir => cases h
        | file d t => cases h; exact ⟨n, rfl, rfl⟩

theorem Stat_ok (fs fs' : FS) (err : Option GoError) (path : String) (st : Nat × Nat)
    (h : Stat fs err path = (Except.ok st, fs')) :
    fs'.entries = fs.entries ∧
      ∀ d t, fs.entries.get path = some (Node.file d t) → st = (d.length, t) := by
  unfold Stat at h
  dsimp only [call_entries] at h
  cases err with
  | some e => cases h
  | none =>
    dsimp only at h
    split at h
    · cases h
    · rename_i d t hget
      cases h
      refine ⟨rfl, ?_⟩
      intro d' t' h'
      rw [hget] at h'
      cases h'
      rfl
    · rename_i hget
      cases h
      refine ⟨rfl, ?_⟩
      intro d' t' h'
      rw [hget] at h'
      cases h'

theorem writeMeta_ok (c : Codec) (fs fs' : FS) (env : SaveEnv) (m : Metadata)
    (h : writeMeta c fs env m = (none, fs')) :
    fs'.entries = fs.entries.set (metaPath m.Filename) (Node.file (c.encode m) env.metaTime) := by
  unfold writeMeta at h
  dsimp only [call_entries] at h
  cases hmc : env.metaCreateErr with
  | some e => rw [hmc] at h; cases h
  | none =>
    rw [hmc] at h
    dsimp only at h
    split at h
    · cases h
    · cases hme : env.metaEncodeErr with
      | some e => rw [hme] at h; cases h
      | none =>
        rw [hme] at h
        dsimp only at h
        cases h
        show GoMap.set (GoMap.set _ _ _) _ _ = _
        rw [GoMap.set_set]

theorem writeMeta_error (c : Codec) (fs fs' : FS) (env : SaveEnv) (m : Metadata) (e : GoError)
    (h : writeMeta c fs env m = (some e, fs')) (k : String) (hk : k ≠ metaPath m.Filename) :
    fs'.entries.get k = fs.entries.get k := by
  unfold writeMeta at h
  dsimp only [call_entries] at h
  cases hmc : env.metaCreateErr with
  | some e' => rw [hmc] at h; cases h; rfl
  | none =>
    rw [hmc] at h
    dsimp only at h
    split at h
    · cases h; rfl
    · cases hme : env.metaEncodeErr with
      | some e' =>
        rw [hme] at h
        dsimp only at h
        cases h
        exact GoMap.get_set_ne _ _ hk
      | none => rw [hme] at h; cases h

/-- What a successful `SaveStream` has done: the producer ran without error, the
metadata is built from the filename and the producer's count, the destination
holds the bytes the producer wrote and the sidecar holds the encoded metadata. -/
theorem SaveStream_ok (c : Codec) (env : SaveEnv) (fs fs' : FS) (ctx : Context)
    (filename : String) (write : Producer) (m : Metadata)
    (h : SaveStream c env fs ctx filename (some write) = (Except.ok m, fs')) :
    validateFilename filename = none ∧
    ∃ w written, write { data := [], space := env.space } = (w, written, none) ∧
      m = { Filename := filename, SizeBytes := written,
            CreatedAt := env.tmpTime, UpdatedAt := env.now } ∧
      fs'.entries = (fs.entries.set filename (Node.file w.data env.tmpTime)).set
        (filename ++ ".meta.json") (Node.file (c.encode m) env.metaTime) := by
  unfold SaveStream at h
  cases hv : validateFilename filename with
  | some e => rw [hv] at h; cases h
  | none =>
  refine ⟨rfl, ?_⟩
  have hbase := Base_of_valid hv
  rw [hv] at h
  dsimp only at h
  rcases hct : CreateTemp fs env with ⟨_ | tmp, fs1⟩
  · rw [hct] at h; cases h
  · obtain ⟨hfresh, hfs1, -⟩ := CreateTemp_ok _ _ _ _ hct
    rw [hct] at h
    rcases hw : write { data := [], space := env.space } with ⟨w, written, werr⟩
    rw [hw] at h
    dsimp only at h
    cases hdone : ctx.done with
    | some cerr => rw [hdone] at h; cases h
    | none =>
    rw [hdone] at h
    dsimp only at h
    cases hclose : env.closeErr with
    | some e => rw [hclose] at h; cases h
    | none =>
    rw [hclose] at h
    dsimp only at h
    cases hsync : env.syncErr with
    | some e => rw [hsync] at h; cases h
    | none =>
    rw [hsync] at h
    dsimp only at h
    cases werr with
    | some e => cases h
    | none =>
    dsimp only at h
    refine ⟨w, written, rfl, ?_⟩
    rw [hbase] at h
    rcases hren : Rename (((({ fs1 with entries := fs1.entries.set tmp (Node.file w.data env.tmpTime) } :
        FS).call (Syscall.Sync tmp)).call (Syscall.Close tmp))) env.renameErr tmp filename
      with ⟨_ | e, fs2⟩
    · rw [hren] at h
      dsimp only at h
      obtain ⟨n, hn, hfs2⟩ := Rename_ok _ _ _ _ _ hren
      simp only [call_entries, hfs1, GoMap.get_set_self] at hn hfs2
      cases hn
      rw [rename_entries _ _ _ _ _ hfresh] at hfs2
      rcases hst : Stat fs2 env.statErr filename with ⟨_ | st, fs3⟩
      · rw [hst] at h; cases h
      · rw [hst] at h
        dsimp only at h
        obtain ⟨hfs3, hst'⟩ := Stat_ok _ _ _ _ _ hst
        have hst2 := hst' w.data env.tmpTime (by rw [hfs2, GoMap.get_set_self])
        subst hst2
        dsimp only at h
        rcases hwm : writeMeta c fs3 env
            { Filename := filename, SizeBytes := written, CreatedAt := env.tmpTime,
              UpdatedAt := env.now } with ⟨_ | e, fs4⟩
        · rw [hwm] at h
          cases h
          refine ⟨rfl, ?_⟩
          rw [writeMeta_ok _ _ _ _ _ hwm, metaPath_of_valid hv, hfs3, hfs2]
        · rw [hwm] at h; cases h
    · rw [hren] at h; cases h

end storage

namespace storage

open FilesystemStore

theorem Rename_none (fs : FS) (src dst : String) (n : Node)
    (hsrc : fs.entries.get src = some n) (hdst : fs.entries.get dst ≠ some Node.dir) :
    Rename fs none src dst =
      (none, { (fs.call (Syscall.Rename src dst)) with
                entries := (fs.entries.delete src).set dst n }) := by
  unfold Rename
  dsimp only [call_entries]
  rw [hsrc]
  cases hd : fs.entries.get dst with
  | none => rfl
  | some o =>
    cases o with
    | dir => exact absurd hd hdst
    | file d t => rfl

theorem Stat_file (fs : FS) (path : String) (d : Bytes) (t : Nat)
    (h : fs.entries.get path = some (Node.file d t)) :
    Stat fs none path = (Except.ok (d.length, t), fs.call (Syscall.Stat path)) := by
  unfold Stat
  dsimp only [call_entries]
  rw [h]

theorem writeMeta_none (c : Codec) (fs fs' : FS) (env : SaveEnv) (m : Metadata)
    (h : writeMeta c fs env m = (none, fs')) :
    env.metaCreateErr = none ∧ env.metaEncodeErr = none := by
  unfold writeMeta at h
  dsimp only [call_entries] at h
  cases hmc : env.metaCreateErr with
  | some e => rw [hmc] at h; cases h
  | none =>
    rw [hmc] at h
    dsimp only at h
    split at h
    · cases h
    · cases hme : env.metaEncodeErr with
      | some e => rw [hme] at h; cases h
      | none => exact ⟨rfl, rfl⟩

/-- C6 as stated fails: the producer succeeds, the rename succeeds, the encoding
of the sidecar fails, and `SaveStream` returns that error instead of the
metadata; the data file is at the destination. -/
theorem sidecar_error_fails_save :
    SaveStream ⟨fun _ => [], fun _ => none⟩
        ⟨[1], none, none, 4, none, none, none, none, none, none,
          some (GoError.sys "write" "EIO"), none, 5, 6⟩
        ⟨[], []⟩ ⟨none, none⟩ "a.txt"
        (some (fun w => ((w.Write [1, 2]).1, 2, none)))
      = (Except.error (GoError.sys "write" "EIO"),
         ⟨[("a.txt.meta.json", Node.file [] 5), ("a.txt", Node.file [1, 2] 4)],
          [Syscall.CreateTemp ".upload-*", Syscall.Sync ".upload-1",
           Syscall.Close ".upload-1", Syscall.Rename ".upload-1" "a.txt",
           Syscall.Stat "a.txt", Syscall.Create "a.txt.meta.json",
           Syscall.Close "a.txt.meta.json"]⟩) := by
  decide

/-- C6, amended: when the producer succeeds and the rename to the destination
succeeds, a failure to create or to encode the metadata sidecar makes
`SaveStream` return an error, not the metadata; the data file is nevertheless
committed at the destination path, with the bytes the producer wrote. -/
theorem SaveStream_sidecar_failure (c : Codec) (env : SaveEnv) (fs : FS) (ctx : Context)
    (filename : String) (write : Producer) (tmp : String)
    (hvalid : validateFilename filename = none)
    (htemp : (CreateTemp fs env).1 = Except.ok tmp)
    (hproducer : (write { data := [], space := env.space }).2.2 = none)
    (hsync : env.syncErr = none) (hdone : ctx.done = none) (hclose : env.closeErr = none)
    (hrename : env.renameErr = none) (hdst : fs.entries.get filename ≠ some Node.dir)
    (hstat : env.statErr = none)
    (hmeta : env.metaCreateErr ≠ none ∨ env.metaEncodeErr ≠ none) :
    (∃ e, (SaveStream c env fs ctx filename (some write)).1 = Except.error e) ∧
    (SaveStream c env fs ctx filename (some write)).2.entries.get filename
      = some (Node.file (write { data := [], space := env.space }).1.data env.tmpTime) := by
  unfold SaveStream
  have hbase := Base_of_valid hvalid
  rw [hvalid]
  dsimp only
  rcases hct : CreateTemp fs env with ⟨r, fs1⟩
  rw [hct] at htemp
  dsimp only at htemp
  subst htemp
  obtain ⟨hfresh, hfs1, -⟩ := CreateTemp_ok _ _ _ _ hct
  rcases hw : write { data := [], space := env.space } with ⟨w, written, werr⟩
  rw [hw] at hproducer
  dsimp only at hproducer
  subst hproducer
  dsimp only
  rw [hdone, hclose, hsync, hbase, hrename]
  dsimp only
  have hdst' : (((({ fs1 with entries := fs1.entries.set tmp (Node.file w.data env.tmpTime) } :
      FS).call (Syscall.Sync tmp)).call (Syscall.Close tmp))).entries.get filename
      ≠ some Node.dir := by
    simp only [call_entries, hfs1]
    by_cases hk : filename = tmp
    · subst hk; rw [GoMap.get_set_self]; simp
    · rw [GoMap.get_set_ne _ _ hk, GoMap.get_set_ne _ _ hk]; exact hdst
  rw [Rename_none _ tmp filename (Node.file w.data env.tmpTime)
      (by simp only [call_entries]; rw [GoMap.get_set_self]) hdst']
  dsimp only [call_entries]
  rw [hfs1, rename_entries _ _ _ _ _ hfresh, hstat]
  rw [Stat_file _ filename w.data env.tmpTime (by dsimp only; rw [GoMap.get_set_self])]
  dsimp only
  rcases hwm : writeMeta c _ env
      { Filename := filename, SizeBytes := written, CreatedAt := env.tmpTime,
        UpdatedAt := env.now } with ⟨_ | e, fs4⟩
  · obtain ⟨h1, h2⟩ := writeMeta_none _ _ _ _ _ hwm
    rcases hmeta with h | h
    · exact absurd h1 h
    · exact absurd h2 h
  · refine ⟨⟨e, rfl⟩, ?_⟩
    dsimp only
    rw [writeMeta_error _ _ _ _ _ _ hwm filename
      (by rw [metaPath_of_valid hvalid]; exact (append_meta_ne filename).symm)]
    simp only [call_entries]
    rw [GoMap.get_set_self]

end storage

/-! ## The protocol handler -/

namespace server

open storage

theorem Write_ok (w w' : Writer) (p : Bytes) (n : Nat)
    (h : w.Write p = (w', n, none)) : w'.data = w.data ++ p ∧ n = p.length := by
  unfold Writer.Write at h
  split at h
  · cases h; exact ⟨rfl, rfl⟩
  · split at h
    · cases h; exact ⟨rfl, rfl⟩
    · cases h

theorem payload_cons (ch : UploadChunk) (chunks : List UploadChunk) :
    payload (ch :: chunks) = ch.Data ++ payload chunks := by
  simp [payload]

theorem recvLoop_ok (rest : List UploadChunk) (w w' : Writer) (total total' : Int)
    (h : recvLoop (rest.map Except.ok) w total = (w', total', none)) :
    w'.data = w.data ++ payload rest ∧ total' = total + (payload rest).length := by
  induction rest generalizing w total with
  | nil =>
    simp only [List.map_nil, recvLoop] at h
    cases h
    simp [payload]
  | cons ch rest ih =>
    simp only [List.map_cons, recvLoop] at h
    rw [payload_cons]
    split at h
    · rcases hw : w.Write ch.Data with ⟨w1, n, _ | e⟩
      · rw [hw] at h
        dsimp only at h
        obtain ⟨h1, h2⟩ := Write_ok _ _ _ _ hw
        obtain ⟨h3, h4⟩ := ih _ _ h
        rw [h3, h1, h4, h2]
        simp [List.append_assoc]
        omega
      · rw [hw] at h; cases h
    · rename_i hlen
      have : ch.Data = [] := by
        cases hd : ch.Data with
        | nil => rfl
        | cons a as => rw [hd] at hlen; simp at hlen
      rw [this]
      simpa using ih _ _ h

theorem uploadWrite_ok (first : UploadChunk) (rest : List UploadChunk) (w w' : Writer)
    (total : Int)
    (h : uploadWrite first (rest.map Except.ok) w = (w', total, none)) :
    w'.data = w.data ++ payload (first :: rest) ∧
      total = (payload (first :: rest)).length := by
  unfold uploadWrite at h
  dsimp only at h
  rw [payload_cons]
  split at h
  · rcases hw : w.Write first.Data with ⟨w1, n, _ | e⟩
    · rw [hw] at h
      dsimp only at h
      obtain ⟨h1, h2⟩ := Write_ok _ _ _ _ hw
      obtain ⟨h3, h4⟩ := recvLoop_ok _ _ _ _ _ h
      rw [h3, h1, h4, h2]
      simp [List.append_assoc]
    · rw [hw] at h; cases h
  · rename_i hlen
    have : first.Data = [] := by
      cases hd : first.Data with
      | nil => rfl
      | cons a as => rw [hd] at hlen; simp at hlen
    rw [this]
    simpa using recvLoop_ok _ _ _ _ _ h

theorem filesystemStore_SaveStream (c : Codec) (senv : SaveEnv) (oenv : OpenEnv)
    (lenv : ListEnv) :
    (filesystemStore c senv oenv lenv).SaveStream = FilesystemStore.SaveStream c senv := rfl

theorem filesystemStore_Open (c : Codec) (senv : SaveEnv) (oenv : OpenEnv)
    (lenv : ListEnv) :
    (filesystemStore c senv oenv lenv).Open = FilesystemStore.Open c oenv := rfl

/-- What a successful `Upload` into the filesystem store has done. -/
theorem Upload_ok (c : Codec) (senv : SaveEnv) (oenv : OpenEnv) (lenv : ListEnv) (fs fs' : FS)
    (ctx : Context) (first : UploadChunk) (rest : List UploadChunk)
    (sendErr : Option GoError) (resp : UploadResponse)
    (h : Upload (filesystemStore c senv oenv lenv) fs
        { ctx := ctx, recv := (first :: rest).map Except.ok, sendErr := sendErr }
      = (Except.ok resp, fs')) :
    validateFilename first.Filename = none ∧
    resp = { Filename := first.Filename, SizeBytes := (payload (first :: rest)).length } ∧
    fs'.entries.get first.Filename
      = some (Node.file (payload (first :: rest)) senv.tmpTime) := by
  unfold Upload at h
  simp only [List.map_cons, filesystemStore_SaveStream] at h
  split at h
  · cases h
  · rcases hs : FilesystemStore.SaveStream c senv fs ctx first.Filename
        (some (uploadWrite first (rest.map Except.ok))) with ⟨_ | m, fs1⟩
    · rw [hs] at h; cases h
    · rw [hs] at h
      dsimp only at h
      obtain ⟨hv, w, written, hw, hm, hfs⟩ := SaveStream_ok c senv fs fs1 ctx _ _ m hs
      obtain ⟨hdata, htotal⟩ := uploadWrite_ok _ _ _ _ _ hw
      cases sendErr with
      | some e => cases h
      | none =>
        dsimp only at h
        cases h
        refine ⟨hv, ?_, ?_⟩
        · rw [hm, htotal]
        · rw [hfs, GoMap.get_set_ne _ _ (append_meta_ne first.Filename).symm,
            GoMap.get_set_self, hdata]
          rfl

end server

namespace server

open storage

theorem downloadLoop_all (stream : DownloadServer) (hsend : ∀ i, stream.sendErr i = none)
    (fuel : Nat) (d : Bytes) (sent : List Bytes) (hfuel : d.length < fuel) :
    ∃ chunks, downloadLoop stream fuel { data := d, err := none } sent
        = some (sent ++ chunks, none) ∧ chunks.flatten = d := by
  induction fuel generalizing d sent with
  | zero => omega
  | succ fuel ih =>
    unfold downloadLoop
    cases d with
    | nil =>
      refine ⟨[], ?_, rfl⟩
      simp [ReadCloser.Read]
    | cons a as =>
      have hpos : 0 < (List.take bufSize (a :: as)).length := by
        simp [bufSize]
      have hlen : (List.drop bufSize (a :: as)).length < fuel := by
        have : (List.drop bufSize (a :: as)).length < (a :: as).length := by
          simp [bufSize]; omega
        omega
      obtain ⟨chunks, h1, h2⟩ := ih (List.drop bufSize (a :: as))
        (sent ++ [List.take bufSize (a :: as)]) hlen
      refine ⟨List.take bufSize (a :: as) :: chunks, ?_, ?_⟩
      · simp only [ReadCloser.Read, reduceCtorEq, if_false, hpos, if_true, hsend]
        rw [h1]
        simp
      · rw [List.flatten_cons, h2, List.take_append_drop]

theorem Open_file (c : Codec) (oenv : OpenEnv) (fs : FS) (ctx : Context)
    (filename : String) (d : Bytes) (t : Nat)
    (hvalid : validateFilename filename = none)
    (hfile : fs.entries.get filename = some (Node.file d t))
    (hopen : oenv.openErr = none) (hstat : oenv.statErr = none) (hread : oenv.readErr = none) :
    ∃ m fs', FilesystemStore.Open c oenv fs ctx filename
      = (Except.ok ({ data := d, err := none }, m), fs') := by
  unfold FilesystemStore.Open
  rw [hvalid]
  dsimp only [call_entries]
  rw [hopen, Base_of_valid hvalid, hfile]
  dsimp only
  rw [hread, hstat]
  cases (ReadFile (fs.call (Syscall.Open filename)) oenv.readFileErr
      (FilesystemStore.metaPath filename)).1.toOption.bind c.decode with
  | some m => exact ⟨_, _, rfl⟩
  | none => exact ⟨_, _, rfl⟩

/-- A download from the filesystem store of an existing file, without I/O
failures: it returns `nil` and the chunks sent make up the file. -/
theorem Download_file (c : Codec) (senv : SaveEnv) (oenv : OpenEnv) (lenv : ListEnv) (fs : FS)
    (filename : String) (stream : DownloadServer) (d : Bytes) (t : Nat)
    (hvalid : validateFilename filename = none)
    (hfile : fs.entries.get filename = some (Node.file d t))
    (hopen : oenv.openErr = none) (hstat : oenv.statErr = none) (hread : oenv.readErr = none)
    (hsend : ∀ i, stream.sendErr i = none) :
    ∃ chunks, (Download (filesystemStore c senv oenv lenv) fs filename stream).1
        = some (chunks, none) ∧ chunks.flatten = d := by
  obtain ⟨chunks, h1, h2⟩ := downloadLoop_all stream hsend (d.length + 1) d [] (by omega)
  obtain ⟨m, fs', ho⟩ := Open_file c oenv fs stream.ctx filename d t hvalid hfile hopen hstat hread
  refine ⟨chunks, ?_, h2⟩
  unfold Download
  rw [filesystemStore_Open, ho]
  simpa using h1

end server

namespace server

open storage

/-- C5: for every sequence of upload chunks whose first chunk names the file,
after `Upload` into the filesystem store succeeds, a `Download` of that name that
meets no I/O failure returns `nil` and the chunks it sends concatenate, in order,
to the concatenation of the payloads in arrival order (empty content included). -/
theorem upload_download_roundtrip (c : Codec) (senv senv' : SaveEnv) (oenv oenv' : OpenEnv)
    (lenv lenv' : ListEnv) (fs fs' : FS) (ctx : Context) (first : UploadChunk)
    (rest : List UploadChunk) (sendErr : Option GoError) (resp : UploadResponse)
    (stream : DownloadServer)
    (hupload : Upload (filesystemStore c senv oenv lenv) fs
        { ctx := ctx, recv := (first :: rest).map Except.ok, sendErr := sendErr }
      = (Except.ok resp, fs'))
    (hopen : oenv'.openErr = none) (hstat : oenv'.statErr = none)
    (hread : oenv'.readErr = none) (hsend : ∀ i, stream.sendErr i = none) :
    ∃ chunks, (Download (filesystemStore c senv' oenv' lenv') fs' first.Filename stream).1
        = some (chunks, none) ∧ chunks.flatten = payload (first :: rest) := by
  obtain ⟨hv, -, hfile⟩ := Upload_ok c senv oenv lenv fs fs' ctx first rest sendErr resp hupload
  exact Download_file c senv' oenv' lenv' fs' first.Filename stream _ _ hv hfile
    hopen hstat hread hsend

/-- C5, at the upload of `a.txt` in the chunks `[1, 2]` and `[3]`. -/
theorem upload_download_roundtrip_witness :
    ∃ chunks, (Download sample.store (Upload sample.store sample.emptyFS sample.upload).2
        "a.txt" sample.download).1 = some (chunks, none) ∧ chunks.flatten = [1, 2, 3] :=
  upload_download_roundtrip sample.nullCodec sample.quiet sample.quiet sample.quietOpen
    sample.quietOpen sample.quietList sample.quietList sample.emptyFS
    (Upload sample.store sample.emptyFS sample.upload).2 sample.background
    { Filename := "a.txt", Data := [1, 2] } [{ Filename := "", Data := [3] }] none
    { Filename := "a.txt", SizeBytes := 3 } sample.download
    (by decide) rfl rfl rfl (fun _ => rfl)

/-- C7 as stated fails: an upload whose first chunk has an empty filename fails
with a plain error, which carries no status code; the transport reports it as
`Unknown`, not as `InvalidArgument`. -/
theorem empty_filename_error_is_plain :
    (Upload sample.store sample.emptyFS
        { ctx := sample.background, recv := [Except.ok { Filename := "", Data := [1] }],
          sendErr := none }).1
      = Except.error (GoError.errorf "filename is required in first chunk") ∧
    (GoError.errorf "filename is required in first chunk").statusCode = Code.Unknown ∧
    (GoError.errorf "filename is required in first chunk").statusCode ≠ Code.InvalidArgument := by
  decide

/-- C7, amended: for every upload stream whose first chunk carries an empty
filename, and every store, `Upload` fails with the plain error
`filename is required in first chunk` (no status code: `Unknown` for the
transport), and the state of the store is untouched: `SaveStream` is not
invoked. -/
theorem Upload_empty_filename {σ : Type} (store : FileStore σ) (s : σ) (ctx : Context)
    (first : UploadChunk) (rest : List (Except GoError UploadChunk))
    (sendErr : Option GoError) (hempty : first.Filename = "") :
    Upload store s { ctx := ctx, recv := Except.ok first :: rest, sendErr := sendErr }
      = (Except.error (GoError.errorf "filename is required in first chunk"), s) ∧
    (GoError.errorf "filename is required in first chunk").statusCode = Code.Unknown := by
  unfold Upload
  simp [hempty, GoError.statusCode]

/-- C7, amended, at a store that counts the calls of `SaveStream`: the count is
still zero. -/
theorem Upload_empty_filename_witness :
    Upload (σ := Nat)
        { SaveStream := fun n _ _ _ => (Except.ok Metadata.zero, n + 1),
          Open := fun n _ _ => (Except.error GoError.eof, n),
          List := fun n _ => (Except.ok [], n) }
        0 { ctx := sample.background, recv := [Except.ok { Filename := "", Data := [1] }],
            sendErr := none }
      = (Except.error (GoError.errorf "filename is required in first chunk"), 0) ∧
    (GoError.errorf "filename is required in first chunk").statusCode = Code.Unknown :=
  Upload_empty_filename _ 0 sample.background { Filename := "", Data := [1] } [] none rfl

/-- C10 as stated fails for a producer whose count differs from what it wrote:
the producer writes three bytes and reports zero, `SaveStream` succeeds with
`SizeBytes = 0`, and a stat of the destination reports three bytes. -/
theorem size_is_reported_count :
    (FilesystemStore.SaveStream sample.nullCodec sample.quiet sample.emptyFS sample.background
        "a.txt" (some (sample.silent [1, 2, 3]))).1
      = Except.ok { Filename := "a.txt", SizeBytes := 0, CreatedAt := 4, UpdatedAt := 6 } ∧
    (Stat (FilesystemStore.SaveStream sample.nullCodec sample.quiet sample.emptyFS
        sample.background "a.txt" (some (sample.silent [1, 2, 3]))).2 none "a.txt").1
      = Except.ok (3, 4) := by
  decide

/-- C10, amended: the metadata returned by a successful `SaveStream`, which is
also the record encoded into the sidecar, has the declared filename and as
`SizeBytes` the count returned by the producer, while the destination holds the
bytes the producer wrote; the write function of `Upload` counts exactly what it
wrote, so a successful `Upload` returns the filename and the total length of the
chunk payloads, which is the size of the committed file. -/
theorem SaveStream_metadata (c : Codec) (senv : SaveEnv) (fs fs' : FS) (ctx : Context) :
    (∀ (filename : String) (write : Producer) (m : Metadata),
      FilesystemStore.SaveStream c senv fs ctx filename (some write) = (Except.ok m, fs') →
      m.Filename = filename ∧
      m.SizeBytes = (write { data := [], space := senv.space }).2.1 ∧
      fs'.entries.get (filename ++ ".meta.json")
        = some (Node.file (c.encode m) senv.metaTime) ∧
      fs'.entries.get filename
        = some (Node.file (write { data := [], space := senv.space }).1.data senv.tmpTime)) ∧
    (∀ (oenv : OpenEnv) (lenv : ListEnv) (first : UploadChunk) (rest : List UploadChunk)
        (sendErr : Option GoError) (resp : UploadResponse),
      Upload (filesystemStore c senv oenv lenv) fs
          { ctx := ctx, recv := (first :: rest).map Except.ok, sendErr := sendErr }
        = (Except.ok resp, fs') →
      resp.Filename = first.Filename ∧
      resp.SizeBytes = (payload (first :: rest)).length ∧
      (Stat fs' none first.Filename).1
        = Except.ok ((payload (first :: rest)).length, senv.tmpTime)) := by
  constructor
  · intro filename write m h
    obtain ⟨-, w, written, hw, hm, hfs⟩ := SaveStream_ok c senv fs fs' ctx filename write m h
    rw [hw]
    refine ⟨by rw [hm], by rw [hm], ?_, ?_⟩
    · rw [hfs, GoMap.get_set_self]
    · rw [hfs, GoMap.get_set_ne _ _ (append_meta_ne filename).symm, GoMap.get_set_self]
  · intro oenv lenv first rest sendErr resp h
    obtain ⟨-, hresp, hfile⟩ := Upload_ok c senv oenv lenv fs fs' ctx first rest sendErr resp h
    refine ⟨by rw [hresp], by rw [hresp], ?_⟩
    rw [Stat_file _ _ _ _ hfile]

/-- C10, amended, at the silent producer and at the upload of `a.txt`. -/
theorem SaveStream_metadata_witness :
    ((⟨"a.txt", 0, 4, 6⟩ : Metadata).SizeBytes
        = (sample.silent [1, 2, 3] { data := [], space := none }).2.1) ∧
    (Stat (Upload sample.store sample.emptyFS sample.upload).2 none "a.txt").1
      = Except.ok (3, 4) :=
  ⟨(((SaveStream_metadata sample.nullCodec sample.quiet sample.emptyFS
        (FilesystemStore.SaveStream sample.nullCodec sample.quiet sample.emptyFS
          sample.background "a.txt" (some (sample.silent [1, 2, 3]))).2 sample.background).1
      "a.txt" (sample.silent [1, 2, 3]) ⟨"a.txt", 0, 4, 6⟩ (by decide)).2.1),
   (((SaveStream_metadata sample.nullCodec sample.quiet sample.emptyFS
        (Upload sample.store sample.emptyFS sample.upload).2 sample.background).2
      sample.quietOpen sample.quietList { Filename := "a.txt", Data := [1, 2] }
      [{ Filename := "", Data := [3] }] none { Filename := "a.txt", SizeBytes := 3 }
      (by decide)).2.2)⟩

end server

namespace sample

open storage

theorem decNat_encNat (n : Nat) (rest : Bytes) : decNat (encNat n ++ rest) = some (n, rest) := by
  induction n with
  | zero => simp [encNat, decNat]
  | succ n ih =>
    have : encNat (n + 1) ++ rest = 1 :: (encNat n ++ rest) := by
      simp [encNat, List.replicate_succ]
    rw [this, decNat, ih]
    simp

theorem decChars_encChars (cs : List Char) (rest : Bytes) :
    decChars cs.length (encChars cs ++ rest) = some (cs, rest) := by
  induction cs generalizing rest with
  | nil => simp [encChars, decChars]
  | cons ch cs ih =>
    simp only [List.length_cons, encChars, decChars, List.append_assoc, decNat_encNat, ih]
    simp [Char.ofNat_toNat]

theorem unaryCodec_roundtrip (m : Metadata) :
    unaryCodec.decode (unaryCodec.encode m) = some m := by
  obtain ⟨⟨cs⟩, size, created, updated⟩ := m
  have h : encNat updated = encNat updated ++ [] := by simp
  simp only [unaryCodec, encodeMeta, decodeMeta, encInt, List.append_assoc, decNat_encNat,
    decChars_encChars]
  rw [h, decNat_encNat]
  simp only [Option.some.injEq, Metadata.mk.injEq, true_and, and_true]
  by_cases hs : size < 0
  · have : 1 ≠ 0 := by decide
    simp only [hs, if_true, this, if_false]
    omega
  · simp only [hs, if_false, if_true]
    omega

end sample

namespace GoMap

variable {V : Type}

theorem mem_delete (m : GoMap V) (k k' : String) (v : V) :
    (k', v) ∈ m.delete k ↔ k' ≠ k ∧ (k', v) ∈ m := by
  simp [delete, List.mem_filter, and_comm]

theorem mem_set (m : GoMap V) (k k' : String) (v v' : V) :
    (k', v') ∈ m.set k v ↔ (k' = k ∧ v' = v) ∨ (k' ≠ k ∧ (k', v') ∈ m) := by
  simp [set, mem_delete]

theorem keys_delete_sublist (m : GoMap V) (k : String) :
    (m.delete k).keys.Sublist m.keys := by
  unfold keys delete
  exact (List.filter_sublist m).map _

theorem not_mem_keys_delete (m : GoMap V) (k : String) : k ∉ (m.delete k).keys := by
  intro h
  simp only [keys, List.mem_map, Prod.exists, exists_and_right, exists_eq_right] at h
  obtain ⟨v, hv⟩ := h
  exact ((mem_delete m k k v).1 hv).1 rfl

theorem keys_nodup_set (m : GoMap V) (k : String) (v : V) (h : m.keys.Nodup) :
    (m.set k v).keys.Nodup := by
  show (GoMap.keys ((k, v) :: m.delete k)).Nodup
  simp only [keys, List.map_cons, List.nodup_cons]
  exact ⟨not_mem_keys_delete m k, (keys_delete_sublist m k).nodup h⟩

theorem mem_of_get (m : GoMap V) (k : String) (v : V) (h : m.get k = some v) : (k, v) ∈ m := by
  induction m with
  | nil => cases h
  | cons e m ih =>
    obtain ⟨k', v'⟩ := e
    by_cases hk : k' = k
    · subst hk
      rw [get_cons_self] at h
      cases h
      exact List.mem_cons_self _ _
    · rw [get_cons_ne m v' hk] at h
      exact List.mem_cons_of_mem _ (ih h)

theorem get_of_mem (m : GoMap V) (k : String) (v : V) (hn : m.keys.Nodup) (h : (k, v) ∈ m) :
    m.get k = some v := by
  induction m with
  | nil => cases h
  | cons e m ih =>
    obtain ⟨k', v'⟩ := e
    simp only [keys, List.map_cons, List.nodup_cons] at hn
    rcases List.mem_cons.1 h with h | h
    · cases h; exact get_cons_self _ _ _
    · have hk : k' ≠ k := by
        intro hk
        subst hk
        exact hn.1 (List.mem_map.2 ⟨(k', v), h, rfl⟩)
      rw [get_cons_ne m v' hk]
      exact ih hn.2 h

end GoMap

namespace storage

theorem HasSuffix_append (n s : String) : strings.HasSuffix (n ++ s) s = true := by
  simp [strings.HasSuffix, String.data_append]

theorem ne_append_of_no_suffix {n n' s : String} (h : strings.HasSuffix n s = false) :
    n ≠ n' ++ s := by
  intro hn
  rw [hn, HasSuffix_append] at h
  cases h

theorem append_right_cancel {n n' s : String} (h : n ++ s = n' ++ s) : n = n' := by
  have := congrArg String.data h
  simp only [String.data_append, List.append_left_inj] at this
  exact String.ext this

end storage

namespace storage

theorem Saved_nil (c : Codec) : Saved c [] [] := by
  refine ⟨List.nodup_nil, ?_, ?_⟩
  · intro k v h; cases h
  · intro n h; cases h

theorem Saved_step (c : Codec) (E : GoMap Node) (ns : List String) (F : String) (d : Bytes)
    (t t' : Nat) (m : Metadata) (hS : Saved c E ns)
    (hns : ∀ n ∈ ns, strings.HasSuffix n ".meta.json" = false)
    (hF : strings.HasSuffix F ".meta.json" = false)
    (hvalid : validateFilename F = none) (hm : m.Filename = F) :
    Saved c ((E.set F (Node.file d t)).set (F ++ ".meta.json") (Node.file (c.encode m) t'))
      (ns ++ [F]) := by
  obtain ⟨hnodup, hkeys, hfiles⟩ := hS
  refine ⟨GoMap.keys_nodup_set _ _ _ (GoMap.keys_nodup_set _ _ _ hnodup), ?_, ?_⟩
  · intro k v hkv
    rcases (GoMap.mem_set _ _ _ _ _).1 hkv with ⟨hk, -⟩ | ⟨-, hkv⟩
    · exact Or.inr ⟨F, by simp, hk⟩
    · rcases (GoMap.mem_set _ _ _ _ _).1 hkv with ⟨hk, -⟩ | ⟨-, hkv⟩
      · exact Or.inl (by simp [hk])
      · rcases hkeys k v hkv with h | ⟨n, hn, h⟩
        · exact Or.inl (List.mem_append_left _ h)
        · exact Or.inr ⟨n, List.mem_append_left _ hn, h⟩
  · intro n hn
    by_cases hnF : n = F
    · subst hnF
      refine ⟨hvalid, ⟨d, t, ?_⟩, ⟨m, t', ?_, hm⟩⟩
      · rw [GoMap.get_set_ne _ _ (append_meta_ne n).symm, GoMap.get_set_self]
      · rw [GoMap.get_set_self]
    · have hn' : n ∈ ns := by
        rcases List.mem_append.1 hn with h | h
        · exact h
        · simp at h; exact absurd h hnF
      obtain ⟨hv, ⟨d0, t0, hd⟩, ⟨m0, t1, hm0, hname⟩⟩ := hfiles n hn'
      refine ⟨hv, ⟨d0, t0, ?_⟩, ⟨m0, t1, ?_, hname⟩⟩
      · rw [GoMap.get_set_ne _ _ (ne_append_of_no_suffix (hns n hn')),
          GoMap.get_set_ne _ _ hnF, hd]
      · have h1 : n ++ ".meta.json" ≠ F ++ ".meta.json" := fun h => hnF (append_right_cancel h)
        have h2 : n ++ ".meta.json" ≠ F := fun h => (ne_append_of_no_suffix hF) h.symm
        rw [GoMap.get_set_ne _ _ h1, GoMap.get_set_ne _ _ h2, hm0]

theorem saveAll_Saved (c : Codec) (calls : List SaveCall) (fs fs' : FS) (ns : List String)
    (hS : Saved c fs.entries ns)
    (hns : ∀ n ∈ ns, strings.HasSuffix n ".meta.json" = false)
    (hcalls : ∀ s ∈ calls, strings.HasSuffix s.filename ".meta.json" = false)
    (h : saveAll c fs calls = some fs') :
    Saved c fs'.entries (ns ++ calls.map (fun s => s.filename)) := by
  induction calls generalizing fs ns with
  | nil =>
    simp only [saveAll, Option.some.injEq] at h
    subst h
    simpa using hS
  | cons s calls ih =>
    unfold saveAll at h
    rcases hs : FilesystemStore.SaveStream c s.env fs s.ctx s.filename (some s.write)
      with ⟨_ | m, fs1⟩
    · rw [hs] at h; cases h
    · rw [hs] at h
      dsimp only at h
      obtain ⟨hv, w, written, -, hm, hfs1⟩ := SaveStream_ok c s.env fs fs1 s.ctx _ _ m hs
      have hF := hcalls s (List.mem_cons_self _ _)
      have hS1 : Saved c fs1.entries (ns ++ [s.filename]) := by
        rw [hfs1]
        exact Saved_step c _ ns s.filename _ _ _ m hS hns hF hv (by rw [hm])
      have hns1 : ∀ n ∈ ns ++ [s.filename], strings.HasSuffix n ".meta.json" = false := by
        intro n hn
        rcases List.mem_append.1 hn with h | h
        · exact hns n h
        · simp at h; rw [h]; exact hF
      have := ih fs1 (ns ++ [s.filename]) hS1 hns1
        (fun s' hs' => hcalls s' (List.mem_cons_of_mem _ hs')) h
      simpa [List.append_assoc] using this

theorem ReadFile_entries (fs : FS) (err : Option GoError) (path : String) :
    (ReadFile fs err path).2.entries = fs.entries := by
  unfold ReadFile
  dsimp only [call_entries]
  cases err with
  | some e => rfl
  | none =>
    dsimp only
    split <;> rfl

theorem ReadFile_ok (fs : FS) (err : Option GoError) (path : String) (b : Bytes)
    (h : (ReadFile fs err path).1 = Except.ok b) :
    ∃ t, fs.entries.get path = some (Node.file b t) := by
  unfold ReadFile at h
  dsimp only [call_entries] at h
  cases err with
  | some e => cases h
  | none =>
    dsimp only at h
    split at h
    · cases h
    · cases h
    · rename_i d t hget
      cases h
      exact ⟨t, hget⟩

end storage

namespace storage

theorem Saved_entry (c : Codec) (E : GoMap Node) (ns : List String) (hS : Saved c E ns)
    (k : String) (v : Node) (hkv : (k, v) ∈ E) :
    (∃ d t, v = Node.file d t) ∧
    (strings.HasSuffix k ".meta.json" = false →
      validateFilename k = none ∧
      ∃ m t, E.get (k ++ ".meta.json") = some (Node.file (c.encode m) t) ∧ m.Filename = k) := by
  obtain ⟨hnodup, hkeys, hfiles⟩ := hS
  have hget := GoMap.get_of_mem E k v hnodup hkv
  rcases hkeys k v hkv with hk | ⟨n, hn, hk⟩
  · obtain ⟨hv, ⟨d, t, hd⟩, hside⟩ := hfiles k hk
    rw [hd] at hget
    cases hget
    exact ⟨⟨d, t, rfl⟩, fun _ => ⟨hv, hside⟩⟩
  · obtain ⟨-, -, ⟨m, t, hm, -⟩⟩ := hfiles n hn
    rw [hk, hm] at hget
    cases hget
    refine ⟨⟨_, _, rfl⟩, ?_⟩
    intro h
    rw [hk, HasSuffix_append] at h
    cases h

/-- The names of the records that the loop of `List` collects over entries of a
directory of saved files: the names of the entries that are not sidecars. -/
theorem listLoop_names (c : Codec) (hcodec : ∀ m, c.decode (c.encode m) = some m)
    (env : ListEnv) (hinfo : ∀ n, env.infoErr n = none) (E : GoMap Node) (ns : List String)
    (hS : Saved c E ns) (es : List (String × Node)) (fs : FS) (out : List Metadata)
    (hfs : fs.entries = E) (hes : ∀ e ∈ es, e ∈ E) :
    (FilesystemStore.listLoop c env es fs out).1.map (fun m => m.Filename)
      = out.map (fun m => m.Filename)
        ++ (es.map Prod.fst).filter (fun k => !strings.HasSuffix k ".meta.json") := by
  induction es generalizing fs out with
  | nil => simp [FilesystemStore.listLoop]
  | cons e es ih =>
    obtain ⟨k, v⟩ := e
    have hes' : ∀ e ∈ es, e ∈ E := fun e he => hes e (List.mem_cons_of_mem _ he)
    obtain ⟨⟨d, t, hv⟩, hk⟩ := Saved_entry c E ns hS k v (hes _ (List.mem_cons_self _ _))
    subst hv
    unfold FilesystemStore.listLoop
    dsimp only
    cases hsuf : strings.HasSuffix k ".meta.json" with
    | true =>
      simp only [if_true, List.map_cons, List.filter_cons, hsuf, Bool.not_true]
      simpa using ih fs out hfs hes'
    | false =>
      obtain ⟨hvalid, m0, t0, hside, hname⟩ := hk hsuf
      simp only [Bool.false_eq_true, if_false, List.map_cons, List.filter_cons, hsuf,
        Bool.not_false, if_true]
      rcases hrf : ReadFile fs (env.readFileErr k) (FilesystemStore.metaPath k) with ⟨b, fs1⟩
      have hfs1 : fs1.entries = E := by
        have := ReadFile_entries fs (env.readFileErr k) (FilesystemStore.metaPath k)
        rw [hrf] at this
        exact this.trans hfs
      dsimp only
      cases hdec : b.toOption.bind c.decode with
      | some m =>
        dsimp only
        have hm : m.Filename = k := by
          cases b with
          | error e => simp [Except.toOption] at hdec
          | ok bytes =>
            have h1 : (ReadFile fs (env.readFileErr k) (FilesystemStore.metaPath k)).1
                = Except.ok bytes := by rw [hrf]
            obtain ⟨t1, hget⟩ := ReadFile_ok _ _ _ _ h1
            rw [metaPath_of_valid hvalid, hfs, hside] at hget
            cases hget
            simp only [Except.toOption, Option.some_bind, hcodec, Option.some.injEq] at hdec
            rw [← hdec, hname]
        rw [ih fs1 (out ++ [m]) hfs1 hes']
        simp [hm]
      | none =>
        dsimp only
        rw [hinfo k]
        dsimp only
        rw [ih _ _ (by rw [call_entries]; exact hfs1) hes']
        simp

end storage

namespace storage

/-- C8 as stated fails for a valid filename that ends in `.meta.json`: the file
`a.meta.json` is saved successfully into the empty store and `List` returns no
record at all, because it skips every entry with that suffix. -/
theorem List_skips_meta_named_file :
    validateFilename "a.meta.json" = none ∧
    (FilesystemStore.SaveStream sample.unaryCodec sample.quiet sample.emptyFS sample.background
        "a.meta.json" (some (sample.honest [1, 2]))).1
      = Except.ok { Filename := "a.meta.json", SizeBytes := 2, CreatedAt := 4, UpdatedAt := 6 } ∧
    (FilesystemStore.List sample.unaryCodec sample.quietList
        (FilesystemStore.SaveStream sample.unaryCodec sample.quiet sample.emptyFS
          sample.background "a.meta.json" (some (sample.honest [1, 2]))).2
        sample.background).1 = Except.ok [] := by
  decide

/-- C8, amended: for distinct valid filenames none of which ends in `.meta.json`,
each saved successfully by `SaveStream` into an initially empty store, and a
codec that parses what it writes, a `List` whose reading of the directory and
whose stat fall-back do not fail returns exactly one record per saved file,
carrying that file's filename, and no other record: the names of the records
are a permutation of the saved names. -/
theorem List_after_saves (c : Codec) (hcodec : ∀ m, c.decode (c.encode m) = some m)
    (calls : List SaveCall) (fs0 fs : FS) (lenv : ListEnv) (ctx : Context)
    (hempty : fs0.entries = [])
    (hsaved : saveAll c fs0 calls = some fs)
    (hdistinct : (calls.map (fun s => s.filename)).Nodup)
    (hsuffix : ∀ s ∈ calls, strings.HasSuffix s.filename ".meta.json" = false)
    (hreaddir : lenv.readDirErr = none) (hinfo : ∀ n, lenv.infoErr n = none) :
    ∃ out, (FilesystemStore.List c lenv fs ctx).1 = Except.ok out ∧
      (out.map (fun m => m.Filename)).Perm (calls.map (fun s => s.filename)) := by
  have hS : Saved c fs.entries (calls.map (fun s => s.filename)) := by
    have := saveAll_Saved c calls fs0 fs [] (by rw [hempty]; exact Saved_nil c)
      (by intro n h; cases h) hsuffix hsaved
    simpa using this
  have hns : ∀ n ∈ calls.map (fun s => s.filename),
      strings.HasSuffix n ".meta.json" = false := by
    intro n hn
    obtain ⟨s, hs, rfl⟩ := List.mem_map.1 hn
    exact hsuffix s hs
  have hperm := List.perm_insertionSort
    (fun a b : String × Node => nameLE a.1.data b.1.data = true) fs.entries
  have hloop := listLoop_names c hcodec lenv hinfo fs.entries _ hS
    (fs.entries.insertionSort (fun a b => nameLE a.1.data b.1.data = true))
    (fs.call Syscall.ReadDir) [] rfl (fun e he => hperm.subset he)
  refine ⟨(FilesystemStore.listLoop c lenv
      (fs.entries.insertionSort (fun a b => nameLE a.1.data b.1.data = true))
      (fs.call Syscall.ReadDir) []).1, ?_, ?_⟩
  · unfold FilesystemStore.List ReadDir
    rw [hreaddir]
    rfl
  · rw [hloop]
    simp only [List.map_nil, List.nil_append]
    have hp : ((fs.entries.insertionSort
        (fun a b => nameLE a.1.data b.1.data = true)).map Prod.fst).filter
          (fun k => !strings.HasSuffix k ".meta.json")
        |>.Perm ((fs.entries.map Prod.fst).filter (fun k => !strings.HasSuffix k ".meta.json")) :=
      (hperm.map _).filter _
    refine hp.trans ?_
    obtain ⟨hnodup, hkeys, hfiles⟩ := hS
    refine (List.perm_ext_iff_of_nodup (hnodup.filter _) hdistinct).2 ?_
    intro k
    rw [List.mem_filter]
    constructor
    · rintro ⟨hmem, hsuf⟩
      obtain ⟨⟨k', v⟩, hv, rfl⟩ := List.mem_map.1 hmem
      rcases hkeys k' v hv with h | ⟨n, -, h⟩
      · exact h
      · dsimp only at hsuf
        rw [h, HasSuffix_append] at hsuf
        cases hsuf
    · intro hk
      obtain ⟨-, ⟨d, t, hd⟩, -⟩ := hfiles k hk
      refine ⟨List.mem_map.2 ⟨(k, _), GoMap.mem_of_get _ _ _ hd, rfl⟩, ?_⟩
      rw [hns k hk]
      rfl

end storage

/-! ## The limiter -/

namespace limiter

open storage (Context)

theorem putBucket_clients_ne (l : Limiter) (addr cat : String) (p : perClientLimits)
    (b : bucket) (a : String) (h : a ≠ addr) :
    (l.putBucket addr cat p b).clients.get a = l.clients.get a := by
  unfold Limiter.putBucket
  exact GoMap.get_set_ne _ _ h

theorem putBucket_bucketOf_self (l : Limiter) (addr cat : String) (p : perClientLimits)
    (b : bucket) : (l.putBucket addr cat p b).bucketOf addr cat = some b := by
  unfold Limiter.putBucket Limiter.bucketOf
  dsimp only
  rw [GoMap.get_set_self]
  exact GoMap.get_set_self _ _ _

theorem putBucket_bucketOf_cat (l : Limiter) (addr cat : String) (p : perClientLimits)
    (b : bucket) (c : String) (h : c ≠ cat) :
    (l.putBucket addr cat p b).bucketOf addr c = p.buckets.get c := by
  unfold Limiter.putBucket Limiter.bucketOf
  dsimp only
  rw [GoMap.get_set_self]
  exact GoMap.get_set_ne _ _ h

theorem putBucket_bucketOf_ne (l : Limiter) (addr cat : String) (p : perClientLimits)
    (b : bucket) (a c : String) (h : a ≠ addr) :
    (l.putBucket addr cat p b).bucketOf a c = l.bucketOf a c := by
  unfold Limiter.bucketOf
  rw [putBucket_clients_ne l addr cat p b a h]

/-- The client state that `acquire` works on. -/
theorem getClient_fst (l : Limiter) (addr : String) :
    (l.getClient addr).1 = (l.clients.get addr).getD { buckets := [] } := by
  unfold Limiter.getClient
  cases l.clients.get addr <;> rfl

theorem getClient_snd_ne (l : Limiter) (addr a : String) (h : a ≠ addr) :
    (l.getClient addr).2.clients.get a = l.clients.get a := by
  unfold Limiter.getClient
  cases l.clients.get addr with
  | none => exact GoMap.get_set_ne _ _ h
  | some p => rfl

theorem getBucket_fst (p : perClientLimits) (cat : String) (size : Int) :
    (p.getBucket cat size).1 = (p.buckets.get cat).getD (newBucket size) := by
  unfold perClientLimits.getBucket
  cases p.buckets.get cat <;> rfl

theorem getBucket_snd_ne (p : perClientLimits) (cat c : String) (size : Int) (h : c ≠ cat) :
    (p.getBucket cat size).2.buckets.get c = p.buckets.get c := by
  unfold perClientLimits.getBucket
  cases p.buckets.get cat with
  | none => exact GoMap.get_set_ne _ _ h
  | some b => rfl

theorem bucketFor_eq (l : Limiter) (addr cat : String) (size : Int) :
    ((l.getClient addr).1.getBucket cat size).1 = bucketFor l addr cat size := by
  rw [getBucket_fst, getClient_fst]
  unfold bucketFor Limiter.bucketOf
  cases l.clients.get addr <;> rfl

/-- Normal form of `acquire`. -/
theorem acquire_eq (l : Limiter) (ctx : Context) (fullMethod : String) :
    l.acquire ctx fullMethod =
      (let addr := clientOf ctx
       let cat := (l.classify fullMethod).1
       let size := (l.classify fullMethod).2
       let p := ((l.getClient addr).1.getBucket cat size).2
       let b := bucketFor l addr cat size
       let l2 := (l.getClient addr).2.putBucket addr cat p b
       match ctx.done with
       | some err => (l2, some (Except.error err))
       | none =>
         if b.len < b.cap then
           (l2.putBucket addr cat p { b with len := b.len + 1 },
             some (Except.ok { addr := addr, category := cat }))
         else (l2, none)) := by
  unfold Limiter.acquire bucket.acquireWithContext
  dsimp only
  rw [bucketFor_eq]
  cases ctx.done with
  | some err => rfl
  | none =>
    dsimp only
    by_cases h : (bucketFor l (clientOf ctx) (l.classify fullMethod).1
        (l.classify fullMethod).2).len < (bucketFor l (clientOf ctx) (l.classify fullMethod).1
        (l.classify fullMethod).2).cap
    · rw [if_pos h, if_pos h]
    · rw [if_neg h, if_neg h]

end limiter

namespace limiter

open storage (Context)

theorem getClient_bucketOf_ne (l : Limiter) (addr a c : String) (h : a ≠ addr) :
    (l.getClient addr).2.bucketOf a c = l.bucketOf a c := by
  unfold Limiter.bucketOf
  rw [getClient_snd_ne l addr a h]

theorem getClient_getBucket_cat (l : Limiter) (addr cat c : String) (size : Int)
    (h : c ≠ cat) :
    ((l.getClient addr).1.getBucket cat size).2.buckets.get c = l.bucketOf addr c := by
  rw [getBucket_snd_ne _ _ _ _ h, getClient_fst]
  unfold Limiter.bucketOf
  cases l.clients.get addr <;> rfl

theorem getClient_max (l : Limiter) (addr : String) :
    (l.getClient addr).2.ioMax = l.ioMax ∧ (l.getClient addr).2.listMax = l.listMax := by
  unfold Limiter.getClient
  cases l.clients.get addr <;> exact ⟨rfl, rfl⟩

/-- What `acquire` does to the limiter and what it returns. -/
theorem acquire_spec (l : Limiter) (ctx : Context) (fullMethod : String) :
    ((l.acquire ctx fullMethod).1.ioMax = l.ioMax ∧
      (l.acquire ctx fullMethod).1.listMax = l.listMax) ∧
    (∀ a, a ≠ clientOf ctx →
      (l.acquire ctx fullMethod).1.clients.get a = l.clients.get a) ∧
    (∀ a c, a ≠ clientOf ctx ∨ c ≠ (l.classify fullMethod).1 →
      (l.acquire ctx fullMethod).1.bucketOf a c = l.bucketOf a c) ∧
    ((∃ e, ctx.done = some e ∧ (l.acquire ctx fullMethod).2 = some (Except.error e) ∧
        (l.acquire ctx fullMethod).1.bucketOf (clientOf ctx) (l.classify fullMethod).1
          = some (bucketFor l (clientOf ctx) (l.classify fullMethod).1
              (l.classify fullMethod).2)) ∨
     (ctx.done = none ∧
        (bucketFor l (clientOf ctx) (l.classify fullMethod).1 (l.classify fullMethod).2).len
          < (bucketFor l (clientOf ctx) (l.classify fullMethod).1
              (l.classify fullMethod).2).cap ∧
        (l.acquire ctx fullMethod).2
          = some (Except.ok { addr := clientOf ctx, category := (l.classify fullMethod).1 }) ∧
        (l.acquire ctx fullMethod).1.bucketOf (clientOf ctx) (l.classify fullMethod).1
          = some { bucketFor l (clientOf ctx) (l.classify fullMethod).1
                    (l.classify fullMethod).2 with
                   len := (bucketFor l (clientOf ctx) (l.classify fullMethod).1
                    (l.classify fullMethod).2).len + 1 }) ∨
     (ctx.done = none ∧
        ¬ (bucketFor l (clientOf ctx) (l.classify fullMethod).1 (l.classify fullMethod).2).len
          < (bucketFor l (clientOf ctx) (l.classify fullMethod).1
              (l.classify fullMethod).2).cap ∧
        (l.acquire ctx fullMethod).2 = none ∧
        (l.acquire ctx fullMethod).1.bucketOf (clientOf ctx) (l.classify fullMethod).1
          = some (bucketFor l (clientOf ctx) (l.classify fullMethod).1
              (l.classify fullMethod).2))) := by
  rw [acquire_eq]
  dsimp only
  have hother : ∀ (b : bucket) (a c : String),
      a ≠ clientOf ctx ∨ c ≠ (l.classify fullMethod).1 →
      ((l.getClient (clientOf ctx)).2.putBucket (clientOf ctx) (l.classify fullMethod).1
        ((l.getClient (clientOf ctx)).1.getBucket (l.classify fullMethod).1
          (l.classify fullMethod).2).2 b).bucketOf a c = l.bucketOf a c := by
    intro b a c h
    by_cases ha : a = clientOf ctx
    · subst ha
      have hc : c ≠ (l.classify fullMethod).1 := by
        rcases h with h | h
        · exact absurd rfl h
        · exact h
      rw [putBucket_bucketOf_cat _ _ _ _ _ _ hc, getClient_getBucket_cat _ _ _ _ _ hc]
    · rw [putBucket_bucketOf_ne _ _ _ _ _ _ _ ha, getClient_bucketOf_ne _ _ _ _ ha]
  have hclients : ∀ (b : bucket) (a : String), a ≠ clientOf ctx →
      ((l.getClient (clientOf ctx)).2.putBucket (clientOf ctx) (l.classify fullMethod).1
        ((l.getClient (clientOf ctx)).1.getBucket (l.classify fullMethod).1
          (l.classify fullMethod).2).2 b).clients.get a = l.clients.get a := by
    intro b a ha
    rw [putBucket_clients_ne _ _ _ _ _ _ ha, getClient_snd_ne _ _ _ ha]
  cases hdone : ctx.done with
  | some err =>
    dsimp only
    refine ⟨getClient_max l _, hclients _, hother _, Or.inl ⟨err, rfl, rfl, ?_⟩⟩
    exact putBucket_bucketOf_self _ _ _ _ _
  | none =>
    dsimp only
    by_cases h : (bucketFor l (clientOf ctx) (l.classify fullMethod).1
        (l.classify fullMethod).2).len < (bucketFor l (clientOf ctx) (l.classify fullMethod).1
        (l.classify fullMethod).2).cap
    · rw [if_pos h]
      refine ⟨getClient_max l _, ?_, ?_, Or.inr (Or.inl ⟨rfl, h, rfl, ?_⟩)⟩
      · intro a ha
        dsimp only
        rw [putBucket_clients_ne _ _ _ _ _ _ ha]
        exact hclients _ a ha
      · intro a c hac
        dsimp only
        by_cases ha : a = clientOf ctx
        · subst ha
          have hc : c ≠ (l.classify fullMethod).1 := by
            rcases hac with h' | h'
            · exact absurd rfl h'
            · exact h'
          rw [putBucket_bucketOf_cat _ _ _ _ _ _ hc, getClient_getBucket_cat _ _ _ _ _ hc]
        · rw [putBucket_bucketOf_ne _ _ _ _ _ _ _ ha]
          exact hother _ a c hac
      · exact putBucket_bucketOf_self _ _ _ _ _
    · rw [if_neg h]
      refine ⟨getClient_max l _, hclients _, hother _, Or.inr (Or.inr ⟨rfl, h, rfl, ?_⟩)⟩
      exact putBucket_bucketOf_self _ _ _ _ _

/-- What a release that goes through does to the limiter. -/
theorem release_spec (l l' : Limiter) (r : Release) (h : l.release r = some l') :
    (l'.ioMax = l.ioMax ∧ l'.listMax = l.listMax) ∧
    (∀ a, a ≠ r.addr → l'.clients.get a = l.clients.get a) ∧
    (∀ a c, a ≠ r.addr ∨ c ≠ r.category → l'.bucketOf a c = l.bucketOf a c) ∧
    ∃ b, l.bucketOf r.addr r.category = some b ∧ 0 < b.len ∧
      l'.bucketOf r.addr r.category = some { b with len := b.len - 1 } := by
  unfold Limiter.release at h
  cases hp : l.clients.get r.addr with
  | none => rw [hp] at h; cases h
  | some p =>
    rw [hp] at h
    dsimp only at h
    cases hb : p.buckets.get r.category with
    | none => rw [hb] at h; cases h
    | some b =>
      rw [hb] at h
      dsimp only at h
      unfold bucket.release at h
      by_cases hlen : 0 < b.len
      · rw [if_pos hlen] at h
        dsimp only at h
        cases h
        refine ⟨⟨rfl, rfl⟩, ?_, ?_, ⟨b, ?_, hlen, ?_⟩⟩
        · intro a ha
          exact putBucket_clients_ne _ _ _ _ _ _ ha
        · intro a c hac
          by_cases ha : a = r.addr
          · subst ha
            have hc : c ≠ r.category := by
              rcases hac with h' | h'
              · exact absurd rfl h'
              · exact h'
            rw [putBucket_bucketOf_cat _ _ _ _ _ _ hc]
            unfold Limiter.bucketOf
            rw [hp]
            rfl
          · exact putBucket_bucketOf_ne _ _ _ _ _ _ _ ha
        · unfold Limiter.bucketOf
          rw [hp]
          exact hb
        · exact putBucket_bucketOf_self _ _ _ _ _
      · rw [if_neg hlen] at h
        cases h

/-- A release on a non-empty bucket goes through. -/
theorem release_some (l : Limiter) (r : Release) (b : bucket)
    (hb : l.bucketOf r.addr r.category = some b) (hlen : 0 < b.len) :
    ∃ l', l.release r = some l' := by
  unfold Limiter.bucketOf at hb
  unfold Limiter.release
  cases hp : l.clients.get r.addr with
  | none => rw [hp] at hb; cases hb
  | some p =>
    rw [hp] at hb
    dsimp only [Option.bind] at hb
    dsimp only
    rw [hb]
    dsimp only
    unfold bucket.release
    rw [if_pos hlen]
    exact ⟨_, rfl⟩

end limiter

namespace limiter

open storage (Context)

theorem classify_size (l : Limiter) (fullMethod : String) :
    (l.classify fullMethod).2 = sizeFor l (l.classify fullMethod).1 := by
  unfold Limiter.classify sizeFor
  split
  · rfl
  · simp

theorem classify_eq_of_cat (l : Limiter) (m₁ m₂ : String)
    (h : (l.classify m₁).1 = (l.classify m₂).1) : l.classify m₁ = l.classify m₂ := by
  apply Prod.ext h
  rw [classify_size, classify_size, h]

theorem sizeFor_congr (l l' : Limiter) (cat : String)
    (h : l'.ioMax = l.ioMax ∧ l'.listMax = l.listMax) : sizeFor l' cat = sizeFor l cat := by
  unfold sizeFor
  rw [h.1, h.2]

theorem bucketFor_of_some (l : Limiter) (a cat : String) (size : Int) (b : bucket)
    (h : l.bucketOf a cat = some b) : bucketFor l a cat size = b := by
  unfold bucketFor
  rw [h]
  rfl

theorem bucketFor_congr (l l' : Limiter) (a cat : String) (size : Int)
    (h : l'.bucketOf a cat = l.bucketOf a cat) :
    bucketFor l' a cat size = bucketFor l a cat size := by
  unfold bucketFor
  rw [h]

theorem step_acquire (c : Config) (ctx : Context) (fullMethod : String) :
    step c (Event.acquire ctx fullMethod) =
      (match c.lim.acquire ctx fullMethod with
       | (l, some (Except.ok r)) => some { lim := l, held := r :: c.held }
       | (l, _) => some { lim := l, held := c.held }) := rfl

theorem step_release (c : Config) (r : Release) :
    step c (Event.release r) =
      (if r ∈ c.held then
        match c.lim.release r with
        | some l => some { lim := l, held := c.held.erase r }
        | none => none
      else none) := rfl

theorem Inv_init (ioMax listMax : Int) : Inv { lim := New ioMax listMax, held := [] } := by
  intro a cat
  have : (New ioMax listMax).bucketOf a cat = none := rfl
  simp [bucketFor, this, newBucket]

/-- An acquire step keeps the invariant. -/
theorem Inv_acquire (c c' : Config) (ctx : Context) (fullMethod : String) (hI : Inv c)
    (h : step c (Event.acquire ctx fullMethod) = some c') : Inv c' := by
  obtain ⟨hmax, -, hother, hself⟩ := acquire_spec c.lim ctx fullMethod
  have hsize := classify_size c.lim fullMethod
  rw [step_acquire] at h
  intro a cat
  by_cases hkey : a = clientOf ctx ∧ cat = (c.lim.classify fullMethod).1
  · obtain ⟨rfl, rfl⟩ := hkey
    obtain ⟨h1, h2, h3⟩ := hI (clientOf ctx) (c.lim.classify fullMethod).1
    rw [← hsize] at h1 h2 h3
    rcases hself with ⟨e, -, hres, hb⟩ | ⟨-, hlt, hres, hb⟩ | ⟨-, -, hres, hb⟩
    · rcases hacq : c.lim.acquire ctx fullMethod with ⟨l', res⟩
      rw [hacq] at hres hb hmax h
      dsimp only at hres hb hmax h
      subst hres
      dsimp only at h
      cases h
      dsimp only
      rw [bucketFor_of_some _ _ _ _ _ hb, sizeFor_congr _ _ _ hmax, ← hsize]
      exact ⟨h1, h2, h3⟩
    · rcases hacq : c.lim.acquire ctx fullMethod with ⟨l', res⟩
      rw [hacq] at hres hb hmax h
      dsimp only at hres hb hmax h
      subst hres
      dsimp only at h
      cases h
      dsimp only
      rw [bucketFor_of_some _ _ _ _ _ hb, sizeFor_congr _ _ _ hmax, ← hsize]
      dsimp only
      refine ⟨?_, hlt, h3⟩
      rw [List.count_cons_self, h1]
    · rcases hacq : c.lim.acquire ctx fullMethod with ⟨l', res⟩
      rw [hacq] at hres hb hmax h
      dsimp only at hres hb hmax h
      subst hres
      dsimp only at h
      cases h
      dsimp only
      rw [bucketFor_of_some _ _ _ _ _ hb, sizeFor_congr _ _ _ hmax, ← hsize]
      exact ⟨h1, h2, h3⟩
  · have hne : a ≠ clientOf ctx ∨ cat ≠ (c.lim.classify fullMethod).1 := by
      by_cases ha : a = clientOf ctx
      · exact Or.inr (fun hc => hkey ⟨ha, hc⟩)
      · exact Or.inl ha
    have hb := hother a cat hne
    obtain ⟨h1, h2, h3⟩ := hI a cat
    have hcount : ∀ held' : List Release,
        (held' = c.held ∨
          held' = { addr := clientOf ctx, category := (c.lim.classify fullMethod).1 } :: c.held) →
        held'.count { addr := a, category := cat }
          = c.held.count { addr := a, category := cat } := by
      intro held' hh
      rcases hh with rfl | rfl
      · rfl
      · apply List.count_cons_of_ne
        intro heq
        cases heq
        exact hkey ⟨rfl, rfl⟩
    rcases hacq : c.lim.acquire ctx fullMethod with ⟨l', res⟩
    rw [hacq] at hb hmax h hself
    dsimp only at hb hmax h hself
    have hl' : ∃ held', c' = { lim := l', held := held' } ∧
        (held' = c.held ∨
          held' = { addr := clientOf ctx, category := (c.lim.classify fullMethod).1 }
            :: c.held) := by
      rcases hself with ⟨e, -, hres, -⟩ | ⟨-, -, hres, -⟩ | ⟨-, -, hres, -⟩
      · subst hres; dsimp only at h; cases h; exact ⟨_, rfl, Or.inl rfl⟩
      · subst hres; dsimp only at h; cases h; exact ⟨_, rfl, Or.inr rfl⟩
      · subst hres; dsimp only at h; cases h; exact ⟨_, rfl, Or.inl rfl⟩
    obtain ⟨held', rfl, hh⟩ := hl'
    dsimp only
    rw [bucketFor_congr _ _ _ _ _ hb, sizeFor_congr _ _ _ hmax, hcount held' hh]
    exact ⟨h1, h2, h3⟩

/-- A release step keeps the invariant. -/
theorem Inv_release (c c' : Config) (r : Release) (hI : Inv c)
    (h : step c (Event.release r) = some c') : Inv c' := by
  rw [step_release] at h
  by_cases hr : r ∈ c.held
  · rw [if_pos hr] at h
    cases hrel : c.lim.release r with
    | none => rw [hrel] at h; cases h
    | some l' =>
      rw [hrel] at h
      dsimp only at h
      cases h
      obtain ⟨hmax, -, hother, b, hb, hlen, hb'⟩ := release_spec _ _ _ hrel
      intro a cat
      dsimp only
      obtain ⟨h1, h2, h3⟩ := hI a cat
      rw [sizeFor_congr _ _ _ hmax]
      by_cases hkey : a = r.addr ∧ cat = r.category
      · obtain ⟨rfl, rfl⟩ := hkey
        rw [bucketFor_of_some _ _ _ _ _ hb] at h1 h2 h3
        rw [bucketFor_of_some _ _ _ _ _ hb']
        dsimp only
        refine ⟨?_, by omega, h3⟩
        rw [List.count_erase_self, ← h1]
      · have hne : a ≠ r.addr ∨ cat ≠ r.category := by
          by_cases ha : a = r.addr
          · exact Or.inr (fun hc => hkey ⟨ha, hc⟩)
          · exact Or.inl ha
        rw [bucketFor_congr _ _ _ _ _ (hother a cat hne)]
        refine ⟨?_, h2, h3⟩
        rw [List.count_erase_of_ne, h1]
        intro heq
        cases heq
        exact hkey ⟨rfl, rfl⟩
  · rw [if_neg hr] at h
    cases h

theorem step_max (c c' : Config) (e : Event) (h : step c e = some c') :
    c'.lim.ioMax = c.lim.ioMax ∧ c'.lim.listMax = c.lim.listMax := by
  cases e with
  | acquire ctx fullMethod =>
    have hmax := (acquire_spec c.lim ctx fullMethod).1
    rw [step_acquire] at h
    rcases hacq : c.lim.acquire ctx fullMethod with ⟨l', res⟩
    rw [hacq] at h hmax
    dsimp only at h hmax
    cases res with
    | none => cases h; exact hmax
    | some x =>
      cases x with
      | error e => cases h; exact hmax
      | ok r => cases h; exact hmax
  | release r =>
    rw [step_release] at h
    by_cases hr : r ∈ c.held
    · rw [if_pos hr] at h
      cases hrel : c.lim.release r with
      | none => rw [hrel] at h; cases h
      | some l' =>
        rw [hrel] at h
        dsimp only at h
        cases h
        exact (release_spec _ _ _ hrel).1
    · rw [if_neg hr] at h
      cases h

/-- Every run keeps the invariant and the configured capacities. -/
theorem Inv_run (evs : List Event) (c c' : Config) (hI : Inv c) (h : run c evs = some c') :
    Inv c' ∧ c'.lim.ioMax = c.lim.ioMax ∧ c'.lim.listMax = c.lim.listMax := by
  induction evs generalizing c with
  | nil =>
    simp only [run, Option.some.injEq] at h
    subst h
    exact ⟨hI, rfl, rfl⟩
  | cons e evs ih =>
    unfold run at h
    cases hs : step c e with
    | none => rw [hs] at h; cases h
    | some c1 =>
      rw [hs] at h
      dsimp only [Option.bind] at h
      have hI1 : Inv c1 := by
        cases e with
        | acquire ctx fullMethod => exact Inv_acquire c c1 ctx fullMethod hI hs
        | release r => exact Inv_release c c1 r hI hs
      obtain ⟨h1, h2, h3⟩ := ih c1 hI1 h
      obtain ⟨h4, h5⟩ := step_max c c1 e hs
      exact ⟨h1, h2.trans h4, h3.trans h5⟩

end limiter

namespace limiter

open storage (Context)

/-- C2: for a limiter created with `ioMax = N`, in every configuration reached by
acquire steps and by release steps of holders, the number of io slots held for a
client is at most `N` when `N ≥ 1` and at most `1` when `N ≤ 0`, and it is the
occupancy of the client's io bucket; and an acquire on a bucket whose occupancy
equals its capacity is not granted and leaves the bucket full, so that only a
release makes room. -/
theorem admission_bound (ioMax listMax : Int) (evs : List Event) (c : Config)
    (client : String)
    (hrun : run { lim := New ioMax listMax, held := [] } evs = some c) :
    ((c.held.count { addr := client, category := "io" } : Int) ≤ if 1 ≤ ioMax then ioMax else 1) ∧
    c.lim.occupancy client "io" = c.held.count { addr := client, category := "io" } ∧
    (∀ (ctx : Context) (fullMethod : String) (b : bucket),
      c.lim.bucketOf (clientOf ctx) (c.lim.classify fullMethod).1 = some b → b.len = b.cap →
      (∀ r, (c.lim.acquire ctx fullMethod).2 ≠ some (Except.ok r)) ∧
      (c.lim.acquire ctx fullMethod).1.bucketOf (clientOf ctx) (c.lim.classify fullMethod).1
        = some b) := by
  obtain ⟨hI, hio, -⟩ := Inv_run evs _ c (Inv_init ioMax listMax) hrun
  obtain ⟨h1, h2, h3⟩ := hI client "io"
  have hsize : sizeFor c.lim "io" = if ioMax ≤ 0 then 1 else ioMax := by
    unfold sizeFor
    rw [if_neg (by decide), hio]
    rfl
  rw [hsize] at h1 h2 h3
  refine ⟨?_, ?_, ?_⟩
  · have hcap : (newBucket (if ioMax ≤ 0 then 1 else ioMax)).cap
        = (if ioMax ≤ 0 then 1 else ioMax).toNat := by
      unfold newBucket
      by_cases h : ioMax ≤ 0
      · simp [h]
      · simp [h]
    rw [hcap] at h3
    generalize bucketFor c.lim client "io" (if ioMax ≤ 0 then 1 else ioMax) = b at h1 h2 h3
    by_cases h : ioMax ≤ 0
    · rw [if_pos h] at h3
      have : ¬ (1 ≤ ioMax) := by omega
      rw [if_neg this]
      simp only [Int.toNat_one] at h3
      omega
    · rw [if_neg h] at h3
      have : 1 ≤ ioMax := by omega
      rw [if_pos this]
      omega
  · rw [← h1]
    unfold Limiter.occupancy bucketFor
    cases c.lim.bucketOf client "io" with
    | none => rfl
    | some b => rfl
  · intro ctx fullMethod b hb hfull
    obtain ⟨-, -, -, hself⟩ := acquire_spec c.lim ctx fullMethod
    rw [bucketFor_of_some _ _ _ _ _ hb] at hself
    rcases hself with ⟨e, -, hres, hb'⟩ | ⟨-, hlt, -, -⟩ | ⟨-, -, hres, hb'⟩
    · refine ⟨?_, hb'⟩
      intro r hr
      rw [hres] at hr
      cases hr
    · omega
    · refine ⟨?_, hb'⟩
      intro r hr
      rw [hres] at hr
      cases hr

/-- C2, at a limiter with `ioMax = 1`: one client acquires twice from two ports and
holds one slot. -/
theorem admission_bound_witness :
    ((([{ addr := "10.0.0.1", category := "io" }] : List Release).count
        { addr := "10.0.0.1", category := "io" } : Int) ≤ if (1 : Int) ≤ 1 then 1 else 1) ∧
    ({ clients := [("10.0.0.1", { buckets := [("io", { cap := 1, len := 1 })] })],
       ioMax := 1, listMax := 1 } : Limiter).occupancy "10.0.0.1" "io"
      = ([{ addr := "10.0.0.1", category := "io" }] : List Release).count
          { addr := "10.0.0.1", category := "io" } :=
  let h := admission_bound 1 1
    [Event.acquire { peer := some "10.0.0.1:5000", done := none } "/filesvc.v1.FileService/Upload",
     Event.acquire { peer := some "10.0.0.1:5001", done := none }
       "/filesvc.v1.FileService/Download"]
    { lim := { clients := [("10.0.0.1", { buckets := [("io", { cap := 1, len := 1 })] })],
               ioMax := 1, listMax := 1 },
      held := [{ addr := "10.0.0.1", category := "io" }] }
    "10.0.0.1" (by decide)
  ⟨h.1, h.2.1⟩

end limiter

namespace limiter

open storage (Context)

theorem occupancy_eq (l : Limiter) (a c : String) (size : Int) :
    l.occupancy a c = (bucketFor l a c size).len := by
  unfold Limiter.occupancy bucketFor
  cases l.bucketOf a c with
  | none => rfl
  | some b => rfl

theorem occupancy_of_some (l : Limiter) (a c : String) (b : bucket)
    (h : l.bucketOf a c = some b) : l.occupancy a c = b.len := by
  unfold Limiter.occupancy
  rw [h]

theorem occupancy_congr (l l' : Limiter) (a c : String)
    (h : l'.bucketOf a c = l.bucketOf a c) : l'.occupancy a c = l.occupancy a c := by
  unfold Limiter.occupancy
  rw [h]

/-- A granted acquire: the release function is the one of the bucket of the call,
whose occupancy went up by one, and running it goes through and restores every
occupancy. -/
theorem acquire_granted (l l1 : Limiter) (ctx : Context) (fullMethod : String) (r : Release)
    (h : l.acquire ctx fullMethod = (l1, some (Except.ok r))) :
    l1.occupancy r.addr r.category = l.occupancy r.addr r.category + 1 ∧
    ∃ l2, l1.release r = some l2 ∧ ∀ a c, l2.occupancy a c = l.occupancy a c := by
  obtain ⟨-, -, hother, hself⟩ := acquire_spec l ctx fullMethod
  rw [h] at hother hself
  dsimp only at hother hself
  rcases hself with ⟨e, -, hres, -⟩ | ⟨-, -, hres, hb⟩ | ⟨-, -, hres, -⟩
  · cases hres
  · cases hres
    dsimp only
    refine ⟨?_, ?_⟩
    · rw [occupancy_of_some _ _ _ _ hb, occupancy_eq l _ _ (l.classify fullMethod).2]
    · obtain ⟨l2, hrel⟩ := release_some l1
        { addr := clientOf ctx, category := (l.classify fullMethod).1 } _ hb
        (Nat.succ_pos _)
      refine ⟨l2, hrel, ?_⟩
      obtain ⟨-, -, hother2, b, hb1, -, hb2⟩ := release_spec _ _ _ hrel
      dsimp only at hother2 hb1 hb2
      rw [hb] at hb1
      cases hb1
      intro a c
      by_cases hkey : a = clientOf ctx ∧ c = (l.classify fullMethod).1
      · obtain ⟨rfl, rfl⟩ := hkey
        rw [occupancy_of_some _ _ _ _ hb2, occupancy_eq l _ _ (l.classify fullMethod).2]
        rfl
      · have hne : a ≠ clientOf ctx ∨ c ≠ (l.classify fullMethod).1 := by
          by_cases ha : a = clientOf ctx
          · exact Or.inr (fun hc => hkey ⟨ha, hc⟩)
          · exact Or.inl ha
        rw [occupancy_congr _ _ _ _ (hother2 a c hne), occupancy_congr _ _ _ _ (hother a c hne)]
  · cases hres

/-- A failed acquire: the error is the one of the context, and no occupancy
changed. -/
theorem acquire_failed (l l1 : Limiter) (ctx : Context) (fullMethod : String) (e : GoError)
    (h : l.acquire ctx fullMethod = (l1, some (Except.error e))) :
    ctx.done = some e ∧ ∀ a c, l1.occupancy a c = l.occupancy a c := by
  obtain ⟨-, -, hother, hself⟩ := acquire_spec l ctx fullMethod
  rw [h] at hother hself
  dsimp only at hother hself
  rcases hself with ⟨e', hdone, hres, hb⟩ | ⟨-, -, hres, -⟩ | ⟨-, -, hres, -⟩
  · cases hres
    refine ⟨hdone, ?_⟩
    intro a c
    by_cases hkey : a = clientOf ctx ∧ c = (l.classify fullMethod).1
    · obtain ⟨rfl, rfl⟩ := hkey
      rw [occupancy_of_some _ _ _ _ hb, occupancy_eq l _ _ (l.classify fullMethod).2]
    · have hne : a ≠ clientOf ctx ∨ c ≠ (l.classify fullMethod).1 := by
        by_cases ha : a = clientOf ctx
        · exact Or.inr (fun hc => hkey ⟨ha, hc⟩)
        · exact Or.inl ha
      exact occupancy_congr _ _ _ _ (hother a c hne)
  · cases hres
  · cases hres

/-- C3: for a call through `UnaryServerInterceptor` or `StreamServerInterceptor`:
when `acquire` succeeds, the handler runs with the occupancy of the bucket one
higher, the release runs exactly once when the handler has returned, whatever it
returned, the interceptor returns what the handler returned, and every occupancy
is afterwards what it was before the call; when `acquire` fails, the error is the
one of the context, the handler is not invoked, that error is returned and no
occupancy changed. -/
theorem interceptor_balance {α : Type} (l : Limiter) (ctx : Context) (fullMethod : String)
    (unary : Unit → Option α × Option GoError) (stream : Unit → Option GoError) :
    (∀ (l1 : Limiter) (r : Release),
      l.acquire ctx fullMethod = (l1, some (Except.ok r)) →
      l1.occupancy r.addr r.category = l.occupancy r.addr r.category + 1 ∧
      ∃ l2,
        l.UnaryServerInterceptor ctx fullMethod unary
          = some { ret := unary (), during := some l1, released := 1, after := l2 } ∧
        l.StreamServerInterceptor ctx fullMethod stream
          = some { ret := stream (), during := some l1, released := 1, after := l2 } ∧
        ∀ a c, l2.occupancy a c = l.occupancy a c) ∧
    (∀ (l1 : Limiter) (e : GoError),
      l.acquire ctx fullMethod = (l1, some (Except.error e)) →
      ctx.done = some e ∧
      l.UnaryServerInterceptor ctx fullMethod unary
        = some { ret := (none, some e), during := none, released := 0, after := l1 } ∧
      l.StreamServerInterceptor ctx fullMethod stream
        = some { ret := some e, during := none, released := 0, after := l1 } ∧
      ∀ a c, l1.occupancy a c = l.occupancy a c) := by
  constructor
  · intro l1 r h
    obtain ⟨hocc, l2, hrel, hall⟩ := acquire_granted l l1 ctx fullMethod r h
    refine ⟨hocc, l2, ?_, ?_, hall⟩
    · unfold Limiter.UnaryServerInterceptor intercept
      rw [h]
      dsimp only
      rw [hrel]
    · unfold Limiter.StreamServerInterceptor intercept
      rw [h]
      dsimp only
      rw [hrel]
  · intro l1 e h
    obtain ⟨hdone, hall⟩ := acquire_failed l l1 ctx fullMethod e h
    refine ⟨hdone, ?_, ?_, hall⟩
    · unfold Limiter.UnaryServerInterceptor intercept
      rw [h]
    · unfold Limiter.StreamServerInterceptor intercept
      rw [h]

/-- C3, at a fresh limiter: an upload whose handler fails, and a call whose
context is already cancelled. -/
theorem interceptor_balance_witness :
    ((({ clients := [("10.0.0.1", { buckets := [("io", { cap := 2, len := 1 })] })],
         ioMax := 2, listMax := 1 } : Limiter).occupancy "10.0.0.1" "io"
        = (New 2 1).occupancy "10.0.0.1" "io" + 1)) ∧
    ({ peer := some "10.0.0.1:5000", done := some GoError.canceled } : Context).done
      = some GoError.canceled :=
  ⟨((interceptor_balance (α := Unit) (New 2 1) { peer := some "10.0.0.1:5000", done := none }
        "/filesvc.v1.FileService/Upload"
        (fun _ => (none, some (GoError.errorf "handler failed")))
        (fun _ => some (GoError.errorf "handler failed"))).1
      { clients := [("10.0.0.1", { buckets := [("io", { cap := 2, len := 1 })] })],
        ioMax := 2, listMax := 1 }
      { addr := "10.0.0.1", category := "io" } (by decide)).1,
   ((interceptor_balance (α := Unit) (New 2 1)
        { peer := some "10.0.0.1:5000", done := some GoError.canceled }
        "/filesvc.v1.FileService/Upload"
        (fun _ => (none, none)) (fun _ => none)).2
      { clients := [("10.0.0.1", { buckets := [("io", { cap := 2, len := 0 })] })],
        ioMax := 2, listMax := 1 }
      GoError.canceled (by decide)).1⟩

end limiter

namespace net

theorem indexByte_none (s : List Char) (c : Char) (h : c ∉ s) : indexByte s c = none := by
  induction s with
  | nil => rfl
  | cons x xs ih =>
    have hx : x ≠ c := fun hxc => h (hxc ▸ List.mem_cons_self _ _)
    have hxs : c ∉ xs := fun hc => h (List.mem_cons_of_mem _ hc)
    simp [indexByte, hx, ih hxs]

theorem lastIndexByte_none (s : List Char) (c : Char) (h : c ∉ s) :
    lastIndexByte s c = none := by
  induction s with
  | nil => rfl
  | cons x xs ih =>
    have hx : x ≠ c := fun hxc => h (hxc ▸ List.mem_cons_self _ _)
    have hxs : c ∉ xs := fun hc => h (List.mem_cons_of_mem _ hc)
    simp [lastIndexByte, hx, ih hxs]

theorem lastIndexByte_append (host port : List Char) (c : Char) (h : c ∉ port) :
    lastIndexByte (host ++ c :: port) c = some host.length := by
  induction host with
  | nil => simp [lastIndexByte, lastIndexByte_none port c h]
  | cons x xs ih => simp [lastIndexByte, ih]

/-- An address made of a host and a port that contain no colon and no bracket
splits into that host and that port. -/
theorem SplitHostPort_host_port (host port : String)
    (hhost : ∀ c ∈ host.data, c ≠ ':' ∧ c ≠ '[' ∧ c ≠ ']')
    (hport : ∀ c ∈ port.data, c ≠ ':' ∧ c ≠ '[' ∧ c ≠ ']') :
    SplitHostPort (host ++ ":" ++ port) = Except.ok (host, port) := by
  have hdata : (host ++ ":" ++ port).data = host.data ++ ':' :: port.data := by
    simp [String.data_append]
  have hcolon : ':' ∉ port.data := fun h => (hport _ h).1 rfl
  have hnot : ∀ c : Char, c ≠ ':' → (∀ x ∈ host.data, x ≠ c) → (∀ x ∈ port.data, x ≠ c) →
      c ∉ host.data ++ ':' :: port.data := by
    intro c hc h1 h2 hmem
    rcases List.mem_append.1 hmem with h | h
    · exact h1 c h rfl
    · rcases List.mem_cons.1 h with h | h
      · exact hc h
      · exact h2 c h rfl
  have hopen : '[' ∉ host.data ++ ':' :: port.data :=
    hnot '[' (by decide) (fun x hx => (hhost x hx).2.1) (fun x hx => (hport x hx).2.1)
  have hclose : ']' ∉ host.data ++ ':' :: port.data :=
    hnot ']' (by decide) (fun x hx => (hhost x hx).2.2) (fun x hx => (hport x hx).2.2)
  have hhead : (host.data ++ ':' :: port.data).head? ≠ some '[' := by
    intro h
    exact hopen (List.mem_of_mem_head? h)
  have hhostc : ':' ∉ host.data := fun h => (hhost _ h).1 rfl
  unfold SplitHostPort
  dsimp only
  rw [hdata, lastIndexByte_append _ _ _ hcolon]
  dsimp only
  rw [if_neg hhead, List.take_left, indexByte_none _ _ hhostc, indexByte_none _ _ hopen,
    indexByte_none _ _ hclose]
  have hdrop : List.drop (host.length + 1) (host.data ++ ':' :: port.data) = port.data := by
    show List.drop (host.data.length + 1) (host.data ++ ':' :: port.data) = port.data
    rw [List.drop_append_eq_append_drop]
    simp
  simp [hdrop]

end net

namespace limiter

open storage (Context)

/-- C9: `normalizeIP` returns the host of every address that splits into a host and
a port (in particular of `host:port` for a host and a port without colon and
bracket) and every other address unchanged; the client identity of a call is
`normalizeIP` of its peer address (`unknown` without a peer); an `acquire` of a
call with peer address `addr` works on the bucket of the pair
(`normalizeIP addr`, category) and on no other: when it is granted the release
function is the one of that bucket and the occupancy of that bucket goes up by
one, when it is not granted no occupancy changes, and in both cases every other
bucket and the state of every other client identity are as before; `acquire` is
determined by that pair (and by what the `select` observes of the context), so
two calls of one category from the same host and different ports acquire from
the same bucket, while a call from another host leaves that bucket alone; and a
release leaves the state of every other client identity as it is. -/
theorem client_identity :
    (∀ host port : String,
      (∀ c ∈ host.data, c ≠ ':' ∧ c ≠ '[' ∧ c ≠ ']') →
      (∀ c ∈ port.data, c ≠ ':' ∧ c ≠ '[' ∧ c ≠ ']') →
      normalizeIP (host ++ ":" ++ port) = host) ∧
    (∀ addr : String,
      (∃ host port, net.SplitHostPort addr = Except.ok (host, port) ∧ normalizeIP addr = host) ∨
      (∃ e, net.SplitHostPort addr = Except.error e ∧ normalizeIP addr = addr)) ∧
    (∀ (addr : String) (done : Option GoError),
      clientOf { peer := some addr, done := done } = normalizeIP addr ∧
      clientOf { peer := none, done := done } = "unknown") ∧
    (∀ (l l1 : Limiter) (addr : String) (done : Option GoError) (m : String)
        (res : Option (Except GoError Release)),
      l.acquire { peer := some addr, done := done } m = (l1, res) →
      (∀ a c, a ≠ normalizeIP addr ∨ c ≠ (l.classify m).1 →
        l1.bucketOf a c = l.bucketOf a c) ∧
      (∀ a, a ≠ normalizeIP addr → l1.clients.get a = l.clients.get a) ∧
      (∀ r, res = some (Except.ok r) →
        r = { addr := normalizeIP addr, category := (l.classify m).1 } ∧
        l1.occupancy (normalizeIP addr) (l.classify m).1
          = l.occupancy (normalizeIP addr) (l.classify m).1 + 1) ∧
      ((∀ r, res ≠ some (Except.ok r)) → ∀ a c, l1.occupancy a c = l.occupancy a c)) ∧
    (∀ (l : Limiter) (addr₁ addr₂ : String) (done : Option GoError) (m₁ m₂ : String),
      normalizeIP addr₁ = normalizeIP addr₂ → (l.classify m₁).1 = (l.classify m₂).1 →
      l.acquire { peer := some addr₁, done := done } m₁
        = l.acquire { peer := some addr₂, done := done } m₂) ∧
    (∀ (l : Limiter) (host port₁ port₂ : String) (done : Option GoError) (m₁ m₂ : String),
      (∀ c ∈ host.data, c ≠ ':' ∧ c ≠ '[' ∧ c ≠ ']') →
      (∀ c ∈ port₁.data, c ≠ ':' ∧ c ≠ '[' ∧ c ≠ ']') →
      (∀ c ∈ port₂.data, c ≠ ':' ∧ c ≠ '[' ∧ c ≠ ']') →
      (l.classify m₁).1 = (l.classify m₂).1 →
      l.acquire { peer := some (host ++ ":" ++ port₁), done := done } m₁
        = l.acquire { peer := some (host ++ ":" ++ port₂), done := done } m₂) ∧
    (∀ (l : Limiter) (host₁ host₂ port : String) (done : Option GoError) (m c : String),
      (∀ x ∈ host₁.data, x ≠ ':' ∧ x ≠ '[' ∧ x ≠ ']') →
      (∀ x ∈ port.data, x ≠ ':' ∧ x ≠ '[' ∧ x ≠ ']') →
      host₂ ≠ host₁ →
      (l.acquire { peer := some (host₁ ++ ":" ++ port), done := done } m).1.bucketOf host₂ c
        = l.bucketOf host₂ c) ∧
    (∀ (l l' : Limiter) (r : Release) (a : String), l.release r = some l' → a ≠ r.addr →
      l'.clients.get a = l.clients.get a) := by
  have hnorm : ∀ host port : String,
      (∀ c ∈ host.data, c ≠ ':' ∧ c ≠ '[' ∧ c ≠ ']') →
      (∀ c ∈ port.data, c ≠ ':' ∧ c ≠ '[' ∧ c ≠ ']') →
      normalizeIP (host ++ ":" ++ port) = host := by
    intro host port hhost hport
    unfold normalizeIP
    rw [net.SplitHostPort_host_port host port hhost hport]
  have hclient : ∀ (addr : String) (done : Option GoError),
      clientOf { peer := some addr, done := done } = normalizeIP addr := fun _ _ => rfl
  have hsame : ∀ (l : Limiter) (addr₁ addr₂ : String) (done : Option GoError) (m₁ m₂ : String),
      normalizeIP addr₁ = normalizeIP addr₂ → (l.classify m₁).1 = (l.classify m₂).1 →
      l.acquire { peer := some addr₁, done := done } m₁
        = l.acquire { peer := some addr₂, done := done } m₂ := by
    intro l addr₁ addr₂ done m₁ m₂ haddr hcat
    rw [acquire_eq, acquire_eq, hclient, hclient, haddr, classify_eq_of_cat l m₁ m₂ hcat]
  have hacq : ∀ (l l1 : Limiter) (addr : String) (done : Option GoError) (m : String)
        (res : Option (Except GoError Release)),
      l.acquire { peer := some addr, done := done } m = (l1, res) →
      (∀ a c, a ≠ normalizeIP addr ∨ c ≠ (l.classify m).1 →
        l1.bucketOf a c = l.bucketOf a c) ∧
      (∀ a, a ≠ normalizeIP addr → l1.clients.get a = l.clients.get a) ∧
      (∀ r, res = some (Except.ok r) →
        r = { addr := normalizeIP addr, category := (l.classify m).1 } ∧
        l1.occupancy (normalizeIP addr) (l.classify m).1
          = l.occupancy (normalizeIP addr) (l.classify m).1 + 1) ∧
      ((∀ r, res ≠ some (Except.ok r)) → ∀ a c, l1.occupancy a c = l.occupancy a c) := by
    intro l l1 addr done m res h
    obtain ⟨-, hclients, hother, hself⟩ := acquire_spec l { peer := some addr, done := done } m
    rw [h, hclient] at hclients hother hself
    dsimp only at hclients hother hself
    refine ⟨hother, hclients, ?_, ?_⟩
    · intro r hr
      rcases hself with ⟨e, -, hres, -⟩ | ⟨-, -, hres, hb⟩ | ⟨-, -, hres, -⟩
      · rw [hres] at hr; cases hr
      · rw [hres] at hr
        cases hr
        refine ⟨rfl, ?_⟩
        rw [occupancy_of_some _ _ _ _ hb, occupancy_eq l _ _ (l.classify m).2]
      · rw [hres] at hr; cases hr
    · intro hng a c
      by_cases hkey : a = normalizeIP addr ∧ c = (l.classify m).1
      · obtain ⟨rfl, rfl⟩ := hkey
        rcases hself with ⟨e, -, -, hb⟩ | ⟨-, -, hres, -⟩ | ⟨-, -, -, hb⟩
        · rw [occupancy_of_some _ _ _ _ hb, occupancy_eq l _ _ (l.classify m).2]
        · exact absurd hres (hng _)
        · rw [occupancy_of_some _ _ _ _ hb, occupancy_eq l _ _ (l.classify m).2]
      · have hne : a ≠ normalizeIP addr ∨ c ≠ (l.classify m).1 := by
          by_cases ha : a = normalizeIP addr
          · exact Or.inr (fun hc => hkey ⟨ha, hc⟩)
          · exact Or.inl ha
        exact occupancy_congr _ _ _ _ (hother a c hne)
  refine ⟨hnorm, ?_, ?_, hacq, hsame, ?_, ?_, ?_⟩
  · intro addr
    unfold normalizeIP
    rcases h : net.SplitHostPort addr with e | ⟨host, port⟩
    · exact Or.inr ⟨e, rfl, rfl⟩
    · exact Or.inl ⟨host, port, rfl, rfl⟩
  · intro addr done
    exact ⟨rfl, rfl⟩
  · intro l host port₁ port₂ done m₁ m₂ hhost h₁ h₂ hcat
    refine hsame l _ _ done m₁ m₂ ?_ hcat
    rw [hnorm host port₁ hhost h₁, hnorm host port₂ hhost h₂]
  · intro l host₁ host₂ port done m c hhost hport hne
    have h := (hacq l _ (host₁ ++ ":" ++ port) done m _ rfl).1 host₂ c
    rw [hnorm host₁ port hhost hport] at h
    exact h (Or.inl hne)
  · intro l l' r a hrel ha
    exact (release_spec l l' r hrel).2.1 a ha

/-- C9, at the host `10.0.0.1` with the ports `5000` and `5001`, and at a second
client `10.0.0.2`: the two ports share one bucket, whose occupancy goes from zero
to one, and the bucket of the second client is not touched. -/
theorem client_identity_witness :
    normalizeIP ("10.0.0.1" ++ ":" ++ "5000") = "10.0.0.1" ∧
    (New 2 1).acquire { peer := some ("10.0.0.1" ++ ":" ++ "5000"), done := none }
        "/filesvc.v1.FileService/Upload"
      = (New 2 1).acquire { peer := some ("10.0.0.1" ++ ":" ++ "5001"), done := none }
        "/filesvc.v1.FileService/Download" ∧
    ((New 2 1).acquire { peer := some "10.0.0.1:5000", done := none }
        "/filesvc.v1.FileService/Upload").1.occupancy (normalizeIP "10.0.0.1:5000")
        ((New 2 1).classify "/filesvc.v1.FileService/Upload").1
      = (New 2 1).occupancy (normalizeIP "10.0.0.1:5000")
          ((New 2 1).classify "/filesvc.v1.FileService/Upload").1 + 1 ∧
    ((New 2 1).acquire { peer := some ("10.0.0.1" ++ ":" ++ "5000"), done := none }
        "/filesvc.v1.FileService/Upload").1.bucketOf "10.0.0.2" "io"
      = (New 2 1).bucketOf "10.0.0.2" "io" :=
  ⟨client_identity.1 "10.0.0.1" "5000" (by decide) (by decide),
   client_identity.2.2.2.2.2.1 (New 2 1) "10.0.0.1" "5000" "5001" none
     "/filesvc.v1.FileService/Upload" "/filesvc.v1.FileService/Download"
     (by decide) (by decide) (by decide) (by decide),
   ((client_identity.2.2.2.1 (New 2 1)
      ((New 2 1).acquire { peer := some "10.0.0.1:5000", done := none }
        "/filesvc.v1.FileService/Upload").1
      "10.0.0.1:5000" none "/filesvc.v1.FileService/Upload"
      (some (Except.ok { addr := "10.0.0.1", category := "io" })) (by decide)).2.2.1
      { addr := "10.0.0.1", category := "io" } rfl).2,
   client_identity.2.2.2.2.2.2.1 (New 2 1) "10.0.0.1" "10.0.0.2" "5000" none
     "/filesvc.v1.FileService/Upload" "io" (by decide) (by decide) (by decide)⟩

end limiter

namespace storage

/-- C6, amended, at an upload of `a.txt` whose sidecar cannot be encoded. -/
theorem SaveStream_sidecar_failure_witness :
    (∃ e, (FilesystemStore.SaveStream sample.nullCodec sample.noSidecar sample.emptyFS
        sample.background "a.txt" (some (sample.honest [1, 2]))).1 = Except.error e) ∧
    (FilesystemStore.SaveStream sample.nullCodec sample.noSidecar sample.emptyFS
        sample.background "a.txt" (some (sample.honest [1, 2]))).2.entries.get "a.txt"
      = some (Node.file [1, 2] 4) :=
  SaveStream_sidecar_failure sample.nullCodec sample.noSidecar sample.emptyFS sample.background
    "a.txt" (sample.honest [1, 2]) ".upload-1" (by decide) (by decide) (by decide) rfl rfl rfl
    rfl (by decide) rfl (Or.inr (by decide))

set_option maxRecDepth 100000 in
/-- C8, amended, at `a.txt` and `b.txt`: exactly two records, one for each. -/
theorem List_after_saves_witness :
    ∃ out, (FilesystemStore.List sample.unaryCodec sample.quietList
        ((saveAll sample.unaryCodec sample.emptyFS sample.twoSaves).getD sample.emptyFS)
        sample.background).1 = Except.ok out ∧
      (out.map (fun m => m.Filename)).Perm ["a.txt", "b.txt"] :=
  List_after_saves sample.unaryCodec sample.unaryCodec_roundtrip sample.twoSaves sample.emptyFS
    ((saveAll sample.unaryCodec sample.emptyFS sample.twoSaves).getD sample.emptyFS)
    sample.quietList sample.background rfl (by decide) (by decide) (by decide) rfl
    (fun _ => rfl)

end storage
